import Mathlib

/-!
# sws: connection handling, listener bootstrap and signal disposition

A shallow embedding of `net.c` and `util.c`.

Bytes are natural numbers below 256 and a C buffer is a `List Nat`.  System
calls are oracles: the results the kernel hands back are inputs of the
embedded functions, and the calls a function performs are recorded in the
value it returns.
-/

namespace Sws

/-! ## util.c: `read_buffer` -/

/-- Largest value of the C type `int` (the type of `rval`, of `bytes_read`
and of the value `read_buffer` returns). -/
def INT_MAX : Nat := 2147483647

/-- Largest value of the C type `size_t` (64-bit). -/
def SIZE_MAX : Nat := 18446744073709551615

/-- What one call of `read(fd, p, count)` hands back: a negative value, or
a chunk of bytes that it stored at `p` and whose length it returned. -/
inductive ReadResult where
  | error
  | data (chunk : List Nat)
  deriving DecidableEq, Repr

/-- The bytes a read result delivered (none for a failed read). -/
def ReadResult.bytes : ReadResult → List Nat
  | .error => []
  | .data chunk => chunk

/-- One `read` call as `read_buffer` issued it: the offset `bytes_read`
added to `buf`, the count `buf_len - bytes_read` asked for, and the
result. -/
structure ReadCall where
  offset : Nat
  count : Nat
  result : ReadResult
  deriving DecidableEq, Repr

/-- The value of a call of `read_buffer`: `ret` is the returned `int`
(`none` when the byte count of a read or the sum `bytes_read += rval` does
not fit the type `int`, for which C defines no value), `buf` the buffer
afterwards and `calls` the reads performed, in order. -/
structure ReadOut where
  ret : Option Int
  buf : List Nat
  calls : List ReadCall
  deriving DecidableEq, Repr

/-- The store done by a read: `chunk` is placed at `buf + off`. -/
def writeAt (buf : List Nat) (off : Nat) (chunk : List Nat) : List Nat :=
  buf.take off ++ chunk ++ buf.drop (off + chunk.length)

/-- The `do ... while` loop of `read_buffer` (util.c:86-92), entered with
the current value of `bytes_read`; `reads i` is the result of the `i`-th
call of `read`.  The loop goes round again only after a read that
delivered at least one byte and left `bytes_read` below `buf_len`, which is
why it ends. -/
def read_loop (reads : Nat → ReadResult) (buf_len : Nat) (i bytes_read : Nat)
    (buf : List Nat) : ReadOut :=
  match reads i with
  | .error =>
    ⟨some (-1), buf, [⟨bytes_read, buf_len - bytes_read, .error⟩]⟩
  | .data chunk =>
    if INT_MAX < bytes_read + chunk.length then
      ⟨none, writeAt buf bytes_read chunk,
        [⟨bytes_read, buf_len - bytes_read, .data chunk⟩]⟩
    else if chunk.length ≠ 0 ∧ bytes_read + chunk.length < buf_len then
      let r := read_loop reads buf_len (i + 1) (bytes_read + chunk.length)
        (writeAt buf bytes_read chunk)
      ⟨r.ret, r.buf, ⟨bytes_read, buf_len - bytes_read, .data chunk⟩ :: r.calls⟩
    else
      ⟨some (bytes_read + chunk.length : Nat), writeAt buf bytes_read chunk,
        [⟨bytes_read, buf_len - bytes_read, .data chunk⟩]⟩
termination_by buf_len - bytes_read
decreasing_by omega

/-- Model of `read_buffer(buf, buf_len, fd)` (util.c:76-95). -/
def read_buffer (buf : List Nat) (buf_len : Nat) (reads : Nat → ReadResult) : ReadOut :=
  read_loop reads buf_len 0 0 buf

/-- The reads of a peer that delivers the listed results and then reports
end of file for ever. -/
def readsOf (l : List ReadResult) : Nat → ReadResult :=
  fun i => l.getD i (.data [])

/-- Bytes delivered by the `m` reads numbered `i`, `i + 1`, ..., in order. -/
def recv (reads : Nat → ReadResult) (i m : Nat) : List Nat :=
  ((List.range' i m).map (fun t => (reads t).bytes)).flatten

/-! ## util.c: `server_sig_handler` -/

/-- What a call of a handler or of one loop iteration ends in. -/
inductive Status where
  /-- The function returned to its caller. -/
  | returned
  /-- The server process ended through `err`/`errx(EXIT_FAILURE, ...)`. -/
  | exit_failure
  /-- The forked child ended through `exit(EXIT_SUCCESS)`. -/
  | child_exit_success
  deriving DecidableEq, Repr

/-- Calls made by `server_sig_handler`. -/
inductive SigEvent where
  | wait
  | perror_wait
  deriving DecidableEq, Repr

/-- Model of `server_sig_handler(signo)` (util.c:102-122).  `SIGCHLD` and
`SIGHUP` are the values of `<signal.h>`; `wait_res` is what `wait` returns
if it is called. -/
def server_sig_handler (SIGCHLD SIGHUP : Int) (signo : Int) (wait_res : Int) :
    List SigEvent × Status :=
  if signo = SIGCHLD then
    if wait_res < 0 then ([.wait, .perror_wait], .returned)
    else ([.wait], .returned)
  else if signo = SIGHUP then ([], .returned)
  else ([], .exit_failure)

/-! ## net.c: `communicate_client` -/

/-- The buffer size of `communicate_client` (net.c:30). -/
def BUF_SIZE : Nat := 1024

/-- The byte of the character constant for a line feed. -/
def NL : Nat := 10

/-- Result of `bzero(buf, n)` on an `n`-byte array. -/
def bzero (n : Nat) : List Nat := List.replicate n 0

/-- The C string held in a buffer: the bytes before its first NUL. -/
def cstr (buf : List Nat) : List Nat := buf.takeWhile (fun b => b != 0)

/-- Model of `strchr(s, c)` for `c` other than NUL: the index of the first
`c` that comes before the first NUL, or `none` (the null pointer). -/
def strchr : List Nat → Nat → Option Nat
  | [], _ => none
  | b :: rest, c =>
    if b = c then some 0
    else if b = 0 then none
    else (strchr rest c).map (· + 1)

/-- The value of `chars_to_print` (net.c:68-69): `line_end - buf - 1`
converted to `size_t` when a newline was found, else `bytes_read`. -/
def chars_to_print (line_end : Option Nat) (bytes_read : Nat) : Nat :=
  match line_end with
  | some k => (((k : Int) - 1) % ((SIZE_MAX : Int) + 1)).toNat
  | none => bytes_read

/-- Bytes of an ASCII string literal. -/
def ascii (s : String) : List Nat := s.toList.map Char.toNat

/-- Model of `printf("%s: %s\n", client_ip, buf)`: the bytes written. -/
def printf_line (client_ip buf : List Nat) : List Nat :=
  cstr client_ip ++ ascii ": " ++ cstr buf ++ [NL]

/-- What one call of `communicate_client` did. -/
inductive ClientOut where
  /-- The sum `bytes_read += rval` left the range of `int`. -/
  | undefined
  /-- `bytes_read < 0`: `perror("reading from client")`, nothing printed. -/
  | read_failed
  /-- The read succeeded and `dflag` is zero: nothing printed. -/
  | quiet
  /-- The store `buf[chars_to_print] = 0` falls outside `buf`. -/
  | out_of_bounds (index : Nat)
  /-- The terminator was stored at `index`; `line` is the C string then
  held in `buf` and `stdout` the bytes `printf` wrote. -/
  | printed (index : Nat) (line stdout : List Nat)
  deriving DecidableEq, Repr

/-- The part of `communicate_client` after the read (net.c:61-73), for the
returned `int` value `bytes_read` and the buffer `buf`. -/
def report (dflag : Int) (client_ip : List Nat) (bytes_read : Int) (buf : List Nat) :
    ClientOut :=
  if bytes_read < 0 then .read_failed
  else
    let line_end := strchr buf NL
    if dflag ≠ 0 then
      let n := chars_to_print line_end bytes_read.toNat
      if n < buf.length then
        .printed n (cstr (buf.set n 0)) (printf_line client_ip (buf.set n 0))
      else .out_of_bounds n
    else .quiet

/-- Model of `communicate_client(flag, client_sock, client_ip)`
(net.c:50-74); `reads` are the results of the reads on `client_sock`. -/
def communicate_client (dflag : Int) (reads : Nat → ReadResult) (client_ip : List Nat) :
    ClientOut :=
  let r := read_buffer (bzero BUF_SIZE) (BUF_SIZE - 1) reads
  match r.ret with
  | none => .undefined
  | some bytes_read => report dflag client_ip bytes_read r.buf

/-- Bytes the call wrote to standard output, where its behaviour is
defined. -/
def ClientOut.stdout : ClientOut → Option (List Nat)
  | .undefined => none
  | .read_failed => some []
  | .quiet => some []
  | .out_of_bounds _ => none
  | .printed _ _ out => some out

/-- The read that `communicate_client` performs on its zeroed buffer. -/
def client_read (reads : Nat → ReadResult) : ReadOut :=
  read_buffer (bzero BUF_SIZE) (BUF_SIZE - 1) reads

/-- The bytes `communicate_client` received: the chunks of the reads it
performed, in order. -/
def content (reads : Nat → ReadResult) : List Nat :=
  ((client_read reads).calls.map (fun c => c.result.bytes)).flatten

/-! ## net.c: `handle_client` -/

/-- The sentinel `UNKNOWN_IP` (net.c:29). -/
def UNKNOWN_IP : List Nat := ascii "X.X.X.X"

/-- Model of `strncpy(dst, src, n)`: the bytes of the C string `src`, cut
or padded with NUL bytes to exactly `n` bytes, replace the first `n` bytes
of `dst`. -/
def strncpy (dst src : List Nat) (n : Nat) : List Nat :=
  writeAt dst 0 ((cstr src ++ List.replicate n 0).take n)

/-- The peer address record the handler looks at: the family tag and the
two address fields it may convert. -/
structure sockaddr_storage where
  ss_family : Nat
  sin_addr : List Nat
  sin6_addr : List Nat
  deriving DecidableEq, Repr

/-- What `handle_client` did: the `perror` calls, the contents of
`client_ip` when it is passed on, the outcome of `communicate_client`, and
the descriptor closed. -/
structure HandleOut where
  perrors : Nat
  client_ip : List Nat
  comm : ClientOut
  closed : Int
  deriving DecidableEq, Repr

/-- The address determination of `handle_client` (net.c:89-113): the
number of `perror` calls and the contents of `client_ip` afterwards.
`inet_ntop af src dst size` gives whether the conversion succeeded and the
contents it left in `dst`; `AF_INET`, `AF_INET6` and `INET6_ADDRSTRLEN` are
the values of the system headers. -/
def determine_client_ip (AF_INET AF_INET6 INET6_ADDRSTRLEN : Nat)
    (inet_ntop : Nat → List Nat → List Nat → Nat → Bool × List Nat)
    (client : sockaddr_storage) : Nat × List Nat :=
  let client_ip := bzero INET6_ADDRSTRLEN
  let step : Bool × Nat × List Nat :=
    if client.ss_family = AF_INET6 then
      let r := inet_ntop AF_INET6 client.sin6_addr client_ip INET6_ADDRSTRLEN
      if r.1 then (true, 0, r.2) else (false, 1, r.2)
    else if client.ss_family = AF_INET then
      let r := inet_ntop AF_INET client.sin_addr client_ip INET6_ADDRSTRLEN
      if r.1 then (true, 0, r.2) else (false, 1, r.2)
    else (false, 0, client_ip)
  if step.1 then (step.2.1, step.2.2)
  else (step.2.1, strncpy step.2.2 UNKNOWN_IP (INET6_ADDRSTRLEN - 1))

/-- Model of `handle_client(client_sock, client, client_length, flag)`
(net.c:85-118). -/
def handle_client (AF_INET AF_INET6 INET6_ADDRSTRLEN : Nat)
    (inet_ntop : Nat → List Nat → List Nat → Nat → Bool × List Nat)
    (client_sock : Int) (client : sockaddr_storage) (dflag : Int)
    (reads : Nat → ReadResult) : HandleOut :=
  let d := determine_client_ip AF_INET AF_INET6 INET6_ADDRSTRLEN inet_ntop client
  { perrors := d.1
    client_ip := d.2
    comm := communicate_client dflag reads d.2
    closed := client_sock }

/-! ## net.c: `accept_client` and the loop of `run_server` -/

/-- Calls made by one iteration of the accept loop, in order. -/
inductive AcceptEvent where
  | accept
  | perror_accept
  | fork
  | err_fork
  | handle (h : HandleOut)
  | exit_success
  | close (fd : Int)
  deriving DecidableEq, Repr

/-- What the kernel and the peer hand to one call of `accept_client`: the
value of `accept`, the peer address record it filled in, the value of
`fork`, and the results of the reads on the accepted connection. -/
structure Arrival where
  client_sock : Int
  client : sockaddr_storage
  fork_res : Int
  reads : Nat → ReadResult

/-- Model of `accept_client(flag, server_sock)` (net.c:127-157). -/
def accept_client (AF_INET AF_INET6 INET6_ADDRSTRLEN : Nat)
    (inet_ntop : Nat → List Nat → List Nat → Nat → Bool × List Nat)
    (dflag : Int) (a : Arrival) : List AcceptEvent × Status :=
  if a.client_sock < 0 then ([.accept, .perror_accept], .returned)
  else if a.fork_res = -1 then ([.accept, .fork, .err_fork], .exit_failure)
  else if a.fork_res = 0 then
    ([.accept, .fork,
      .handle (handle_client AF_INET AF_INET6 INET6_ADDRSTRLEN inet_ntop a.client_sock
        a.client dflag a.reads),
      .exit_success], .child_exit_success)
  else ([.accept, .fork, .close a.client_sock], .returned)

/-- The loop `do { accept_client(flag, server_sock); } while (1);` of
`run_server` (net.c:260-263), followed for as many iterations as arrivals
are listed: the calls made, and how the process stands afterwards
(`returned` here means that the loop is about to call `accept_client`
again). -/
def run_server_loop (AF_INET AF_INET6 INET6_ADDRSTRLEN : Nat)
    (inet_ntop : Nat → List Nat → List Nat → Nat → Bool × List Nat)
    (dflag : Int) : List Arrival → List AcceptEvent × Status
  | [] => ([], .returned)
  | a :: rest =>
    let r := accept_client AF_INET AF_INET6 INET6_ADDRSTRLEN inet_ntop dflag a
    match r.2 with
    | .returned =>
      let s := run_server_loop AF_INET AF_INET6 INET6_ADDRSTRLEN inet_ntop dflag rest
      (r.1 ++ s.1, s.2)
    | st => (r.1, st)

/-! ## net.c: `setup_server_socket` -/

/-- The fields of `struct flags` (util.h) that the listener reads;
`i_address = none` is the null pointer. -/
structure flags where
  dflag : Int
  i_address : Option (List Nat)
  ipv6 : Int
  p_port : Nat
  deriving DecidableEq, Repr

/-- The local variables `server4` and `server6`; an address of `none` is
one that was never written. -/
inductive SockAddr where
  | in4 (sin_family sin_port : Nat) (sin_addr : Option (List Nat))
  | in6 (sin6_family sin6_port : Nat) (sin6_addr : Option (List Nat))
  deriving DecidableEq, Repr

/-- System calls of `setup_server_socket`, in order. -/
inductive SetupEvent where
  | socket (domain : Nat)
  | err (msg : String)
  | bind (sock : Int) (addr : SockAddr) (len : Nat)
  | getsockname (sock : Int) (addr : SockAddr) (len : Nat)
  deriving DecidableEq, Repr

/-- Values of the system headers and results of the system calls that
`setup_server_socket` depends on. -/
structure SetupEnv where
  AF_INET : Nat
  AF_INET6 : Nat
  sizeof_sockaddr_in : Nat
  sizeof_sockaddr_in6 : Nat
  ntohs : Nat → Nat
  inet_pton : Nat → List Nat → Option (List Nat)
  socket_res : Int
  bind_res : Int
  getsockname_res : Int

/-- The value of `ipv6` (net.c:177). -/
def use_ipv6 (flag : flags) : Bool :=
  decide (flag.i_address = none) || decide (flag.ipv6 ≠ 0)

/-- The address structure that `server` points to (net.c:191-216): the
local `server6` or `server4` as filled in. -/
def server_addr (e : SetupEnv) (flag : flags) : SockAddr :=
  let hport := e.ntohs flag.p_port
  if use_ipv6 flag then
    .in6 e.AF_INET6 (hport % 65536)
      (match flag.i_address with
        | none => some (List.replicate 16 0)
        | some s => e.inet_pton e.AF_INET6 s)
  else
    .in4 e.AF_INET (hport % 65536)
      (match flag.i_address with
        | none => none
        | some s => e.inet_pton e.AF_INET s)

/-- The value of `server_length` (net.c:215). -/
def server_length (e : SetupEnv) (flag : flags) : Nat :=
  if use_ipv6 flag then e.sizeof_sockaddr_in6 else e.sizeof_sockaddr_in

/-- Model of `setup_server_socket(flag)` (net.c:165-225): the system calls
made and the socket returned (`none` when the process ended in `err`). -/
def setup_server_socket (e : SetupEnv) (flag : flags) : List SetupEvent × Option Int :=
  let domain := if use_ipv6 flag then e.AF_INET6 else e.AF_INET
  if e.socket_res < 0 then ([.socket domain, .err "opening stream socket"], none)
  else
    let server := server_addr e flag
    let server_length := server_length e flag
    if e.bind_res < 0 then
      ([.socket domain, .bind e.socket_res server server_length,
        .err "binding stream socket"], none)
    else if e.getsockname_res < 0 then
      ([.socket domain, .bind e.socket_res server server_length,
        .getsockname e.socket_res server server_length, .err "getting socket name"], none)
    else
      ([.socket domain, .bind e.socket_res server server_length,
        .getsockname e.socket_res server server_length], some e.socket_res)

/-- The family tag stored in an address structure. -/
def SockAddr.family : SockAddr → Nat
  | .in4 f _ _ => f
  | .in6 f _ _ => f

/-- Whether the structure is a `struct sockaddr_in6`. -/
def SockAddr.is6 : SockAddr → Bool
  | .in4 _ _ _ => false
  | .in6 _ _ _ => true

/-! ## Inputs used in examples -/

/-- A peer that sends three bytes in two segments and then closes. -/
def threeBytes : Nat → ReadResult := readsOf [.data [104, 105], .data [NL], .data []]

/-- A peer that delivers one GiB of zero bytes at every read. -/
def gibReads : Nat → ReadResult := fun _ => .data (List.replicate 1073741824 0)

/-- A peer that sends `"hello\n"` and closes. -/
def helloReads : Nat → ReadResult := readsOf [.data (ascii "hello\n"), .data []]

/-- A peer that sends `"ping\n"` and closes. -/
def pingReads : Nat → ReadResult := readsOf [.data (ascii "ping\n"), .data []]

/-- A peer that sends the three bytes `a`, NUL, `b` and closes. -/
def nulReads : Nat → ReadResult := readsOf [.data [97, 0, 98], .data []]

/-- A peer that sends a single newline and closes. -/
def newlineReads : Nat → ReadResult := readsOf [.data [NL], .data []]

/-- A peer that sends a newline followed by `"ping\n"` and closes. -/
def newlinePingReads : Nat → ReadResult := readsOf [.data (ascii "\nping\n"), .data []]

/-- A peer that has 1024 or more bytes `a` to send: every read delivers as
many of them as were asked for. -/
def floodReads : Nat → ReadResult := fun _ => .data (List.replicate 1023 97)

/-- The 1023 bytes `a`, NUL, then 1021 times `a`. -/
def nulFlood : List Nat := 97 :: 0 :: List.replicate 1021 97

/-- A peer that has 1024 or more bytes to send, the second of them NUL and
none a newline: every read delivers as many of them as were asked for. -/
def nulFloodReads : Nat → ReadResult := fun _ => .data nulFlood

/-- An `inet_ntop` that fails and leaves the bytes of `"junkjunkjunk"` in
the buffer. -/
def failing_ntop : Nat → List Nat → List Nat → Nat → Bool × List Nat :=
  fun _ _ _ _ => (false, ascii "junkjunkjunk")

/-! ## Lemmas on buffers -/

theorem recv_zero (reads : Nat → ReadResult) (i : Nat) : recv reads i 0 = [] := by
  simp [recv]

theorem recv_succ (reads : Nat → ReadResult) (i m : Nat) :
    recv reads i (m + 1) = (reads i).bytes ++ recv reads (i + 1) m := by
  simp [recv, List.range'_succ]

theorem recv_succ_last (reads : Nat → ReadResult) (i m : Nat) :
    recv reads i (m + 1) = recv reads i m ++ (reads (i + m)).bytes := by
  simp [recv, List.range'_concat]

theorem writeAt_nil (buf : List Nat) (off : Nat) : writeAt buf off [] = buf := by
  simp [writeAt]

theorem length_writeAt_ge (buf : List Nat) (off : Nat) (a : List Nat) (h : off ≤ buf.length) :
    off + a.length ≤ (writeAt buf off a).length := by
  simp [writeAt, Nat.min_eq_left h]

theorem length_writeAt (buf : List Nat) (off : Nat) (a : List Nat)
    (h : off + a.length ≤ buf.length) : (writeAt buf off a).length = buf.length := by
  simp [writeAt]
  omega

theorem writeAt_append (buf : List Nat) (off : Nat) (a b : List Nat) (h : off ≤ buf.length) :
    writeAt (writeAt buf off a) (off + a.length) b = writeAt buf off (a ++ b) := by
  have h1 : (List.take off buf ++ a).length = off + a.length := by
    simp [Nat.min_eq_left h]
  have h2 : List.take (off + a.length) (List.take off buf ++ a ++ List.drop (off + a.length) buf)
      = List.take off buf ++ a := by
    rw [← h1, List.take_left]
  have h3 : List.drop (off + a.length + b.length)
      (List.take off buf ++ a ++ List.drop (off + a.length) buf)
      = List.drop (off + (a ++ b).length) buf := by
    rw [show off + a.length + b.length = (List.take off buf ++ a).length + b.length by rw [h1],
      List.drop_append, List.drop_drop, List.length_append]
    congr 1
    omega
  unfold writeAt
  rw [h2, h3]
  simp

theorem take_writeAt_zero (buf a : List Nat) : (writeAt buf 0 a).take a.length = a := by
  simp [writeAt]

/-! ## Lemmas on the read loop -/

theorem read_loop_error (reads : Nat → ReadResult) (buf_len i b : Nat) (buf : List Nat)
    (h : reads i = .error) :
    read_loop reads buf_len i b buf = ⟨some (-1), buf, [⟨b, buf_len - b, .error⟩]⟩ := by
  rw [read_loop]; simp only [h]

theorem read_loop_overflow (reads : Nat → ReadResult) (buf_len i b : Nat) (buf a : List Nat)
    (h : reads i = .data a) (ho : INT_MAX < b + a.length) :
    read_loop reads buf_len i b buf
      = ⟨none, writeAt buf b a, [⟨b, buf_len - b, .data a⟩]⟩ := by
  rw [read_loop]; simp only [h, if_pos ho]

theorem read_loop_continue (reads : Nat → ReadResult) (buf_len i b : Nat) (buf a : List Nat)
    (h : reads i = .data a) (ho : ¬ INT_MAX < b + a.length)
    (hc : a.length ≠ 0 ∧ b + a.length < buf_len) :
    read_loop reads buf_len i b buf
      = ⟨(read_loop reads buf_len (i + 1) (b + a.length) (writeAt buf b a)).ret,
          (read_loop reads buf_len (i + 1) (b + a.length) (writeAt buf b a)).buf,
          ⟨b, buf_len - b, .data a⟩ ::
            (read_loop reads buf_len (i + 1) (b + a.length) (writeAt buf b a)).calls⟩ := by
  rw [read_loop]; simp only [h, if_neg ho, if_pos hc]

theorem read_loop_stop (reads : Nat → ReadResult) (buf_len i b : Nat) (buf a : List Nat)
    (h : reads i = .data a) (ho : ¬ INT_MAX < b + a.length)
    (hc : ¬ (a.length ≠ 0 ∧ b + a.length < buf_len)) :
    read_loop reads buf_len i b buf
      = ⟨some ((b + a.length : Nat) : Int), writeAt buf b a, [⟨b, buf_len - b, .data a⟩]⟩ := by
  rw [read_loop]; simp only [h, if_neg ho, if_neg hc]

theorem read_loop_calls_pos (reads : Nat → ReadResult) (buf_len i b : Nat) (buf : List Nat) :
    0 < (read_loop reads buf_len i b buf).calls.length := by
  induction i, b, buf using read_loop.induct reads buf_len with
  | case1 i b buf h => simp [read_loop_error _ _ _ _ _ h]
  | case2 i b buf a h ho => simp [read_loop_overflow _ _ _ _ _ _ h ho]
  | case3 i b buf a h ho hc ih => simp [read_loop_continue _ _ _ _ _ _ h ho hc]
  | case4 i b buf a h ho hc => simp [read_loop_stop _ _ _ _ _ _ h ho hc]

/-- The buffer after the loop: the bytes received, stored from the entry
offset on. -/
theorem read_loop_buf (reads : Nat → ReadResult) (buf_len i b : Nat) (buf : List Nat)
    (hb : b ≤ buf.length) :
    (read_loop reads buf_len i b buf).buf
      = writeAt buf b (recv reads i (read_loop reads buf_len i b buf).calls.length) := by
  induction i, b, buf using read_loop.induct reads buf_len with
  | case1 i b buf h =>
    simp [read_loop_error _ _ _ _ _ h, recv_succ, recv_zero, h, ReadResult.bytes, writeAt_nil]
  | case2 i b buf a h ho =>
    simp [read_loop_overflow _ _ _ _ _ _ h ho, recv_succ, recv_zero, h, ReadResult.bytes]
  | case3 i b buf a h ho hc ih =>
    have ih := ih (length_writeAt_ge buf b a hb)
    rw [read_loop_continue _ _ _ _ _ _ h ho hc]
    simp only [List.length_cons]
    rw [ih, recv_succ, h, ReadResult.bytes, writeAt_append _ _ _ _ hb]
  | case4 i b buf a h ho hc =>
    simp [read_loop_stop _ _ _ _ _ _ h ho hc, recv_succ, recv_zero, h, ReadResult.bytes]

/-- The reads performed are consecutive results of the stream, each issued
at the running byte total and asking for the room that is left. -/
theorem read_loop_calls (reads : Nat → ReadResult) (buf_len i b : Nat) (buf : List Nat) :
    (read_loop reads buf_len i b buf).calls
      = (List.range (read_loop reads buf_len i b buf).calls.length).map (fun j =>
          (⟨b + (recv reads i j).length, buf_len - (b + (recv reads i j).length),
            reads (i + j)⟩ : ReadCall)) := by
  induction i, b, buf using read_loop.induct reads buf_len with
  | case1 i b buf h =>
    simp [read_loop_error _ _ _ _ _ h, recv_zero, h, List.range_succ_eq_map]
  | case2 i b buf a h ho =>
    simp [read_loop_overflow _ _ _ _ _ _ h ho, recv_zero, h, List.range_succ_eq_map]
  | case3 i b buf a h ho hc ih =>
    rw [read_loop_continue _ _ _ _ _ _ h ho hc]
    simp only [List.length_cons, List.range_succ_eq_map, List.map_cons, List.map_map]
    rw [recv_zero]
    nth_rewrite 1 [ih]
    simp [h, recv_succ, ReadResult.bytes, Function.comp_def, Nat.add_assoc, Nat.add_comm 1]
  | case4 i b buf a h ho hc =>
    simp [read_loop_stop _ _ _ _ _ _ h ho hc, recv_zero, h, List.range_succ_eq_map]

/-- Every read but the last delivered at least one byte and left room. -/
theorem read_loop_continued (reads : Nat → ReadResult) (buf_len i b : Nat) (buf : List Nat)
    (j : Nat) (hj : j + 1 < (read_loop reads buf_len i b buf).calls.length) :
    reads (i + j) ≠ .error ∧ (reads (i + j)).bytes ≠ [] ∧
      b + (recv reads i (j + 1)).length < buf_len := by
  induction i, b, buf using read_loop.induct reads buf_len generalizing j with
  | case1 i b buf h => simp [read_loop_error _ _ _ _ _ h] at hj
  | case2 i b buf a h ho => simp [read_loop_overflow _ _ _ _ _ _ h ho] at hj
  | case3 i b buf a h ho hc ih =>
    rw [read_loop_continue _ _ _ _ _ _ h ho hc] at hj
    simp only [List.length_cons] at hj
    cases j with
    | zero =>
      refine ⟨by simp [h], ?_, ?_⟩
      · simp only [Nat.add_zero, h, ReadResult.bytes]
        intro hnil
        exact hc.1 (by simp [hnil])
      · simp [recv_succ, recv_zero, h, ReadResult.bytes]
        exact hc.2
    | succ j =>
      have := ih j (by omega)
      rw [recv_succ (m := j + 1), h]
      simp only [ReadResult.bytes, List.length_append]
      rw [show i + (j + 1) = i + 1 + j by omega]
      refine ⟨this.1, this.2.1, ?_⟩
      omega
  | case4 i b buf a h ho hc => simp [read_loop_stop _ _ _ _ _ _ h ho hc] at hj

/-- How the loop ends: on a failed read with `-1`; on a sum outside the
range of `int` with no defined value; otherwise with the byte total, after
a read that delivered nothing or filled the room. -/
theorem read_loop_ret (reads : Nat → ReadResult) (buf_len i b : Nat) (buf : List Nat) :
    (reads (i + ((read_loop reads buf_len i b buf).calls.length - 1)) = .error ∧
        (read_loop reads buf_len i b buf).ret = some (-1)) ∨
    (∃ a, reads (i + ((read_loop reads buf_len i b buf).calls.length - 1)) = .data a ∧
        INT_MAX < b + (recv reads i (read_loop reads buf_len i b buf).calls.length).length ∧
        (read_loop reads buf_len i b buf).ret = none) ∨
    (∃ a, reads (i + ((read_loop reads buf_len i b buf).calls.length - 1)) = .data a ∧
        ¬ INT_MAX < b + (recv reads i (read_loop reads buf_len i b buf).calls.length).length ∧
        (read_loop reads buf_len i b buf).ret
          = some ((b + (recv reads i (read_loop reads buf_len i b buf).calls.length).length
              : Nat) : Int) ∧
        (a = [] ∨
          buf_len ≤ b + (recv reads i (read_loop reads buf_len i b buf).calls.length).length)) := by
  induction i, b, buf using read_loop.induct reads buf_len with
  | case1 i b buf h =>
    left
    simp [read_loop_error _ _ _ _ _ h, h]
  | case2 i b buf a h ho =>
    right; left
    refine ⟨a, ?_⟩
    simp [read_loop_overflow _ _ _ _ _ _ h ho, h, recv_succ, recv_zero, ReadResult.bytes]
    exact ho
  | case3 i b buf a h ho hc ih =>
    have hpos := read_loop_calls_pos reads buf_len (i + 1) (b + a.length) (writeAt buf b a)
    rw [read_loop_continue _ _ _ _ _ _ h ho hc]
    simp only [List.length_cons, Nat.add_sub_cancel]
    have hidx : i + (read_loop reads buf_len (i + 1) (b + a.length) (writeAt buf b a)).calls.length
        = i + 1 + ((read_loop reads buf_len (i + 1) (b + a.length)
            (writeAt buf b a)).calls.length - 1) := by omega
    rw [hidx, recv_succ, h]
    simp only [ReadResult.bytes, List.length_append, ← Nat.add_assoc]
    exact ih
  | case4 i b buf a h ho hc =>
    right; right
    refine ⟨a, ?_⟩
    simp only [read_loop_stop _ _ _ _ _ _ h ho hc, List.length_singleton, Nat.sub_self,
      Nat.add_zero, h, recv_succ, recv_zero, ReadResult.bytes, List.append_nil, true_and]
    refine ⟨ho, ?_⟩
    by_cases ha : a = []
    · exact Or.inl ha
    · right
      have : a.length ≠ 0 := by simpa using ha
      by_contra hlt
      exact hc ⟨this, by omega⟩

/-! ## `read_buffer` -/

theorem read_buffer_calls (buf : List Nat) (buf_len : Nat) (reads : Nat → ReadResult) :
    (read_buffer buf buf_len reads).calls
      = (List.range (read_buffer buf buf_len reads).calls.length).map (fun j =>
          (⟨(recv reads 0 j).length, buf_len - (recv reads 0 j).length, reads j⟩ : ReadCall)) := by
  have h := read_loop_calls reads buf_len 0 0 buf
  simpa [read_buffer] using h

theorem read_buffer_call_mem (buf : List Nat) (buf_len : Nat) (reads : Nat → ReadResult)
    (j : Nat) (hj : j < (read_buffer buf buf_len reads).calls.length) :
    (⟨(recv reads 0 j).length, buf_len - (recv reads 0 j).length, reads j⟩ : ReadCall)
      ∈ (read_buffer buf buf_len reads).calls := by
  rw [read_buffer_calls]
  exact List.mem_map.mpr ⟨j, List.mem_range.mpr hj, rfl⟩

theorem read_buffer_content (buf : List Nat) (buf_len : Nat) (reads : Nat → ReadResult) :
    ((read_buffer buf buf_len reads).calls.map (fun c => c.result.bytes)).flatten
      = recv reads 0 (read_buffer buf buf_len reads).calls.length := by
  nth_rewrite 1 [read_buffer_calls]
  simp [recv, List.range_eq_range', Function.comp_def]

/-- With reads that stay within the count asked for, the byte total never
exceeds `buf_len`. -/
theorem read_buffer_total_le (buf : List Nat) (buf_len : Nat) (reads : Nat → ReadResult)
    (hwf : ∀ c ∈ (read_buffer buf buf_len reads).calls, c.result.bytes.length ≤ c.count) :
    (recv reads 0 (read_buffer buf buf_len reads).calls.length).length ≤ buf_len := by
  have hpos : 0 < (read_buffer buf buf_len reads).calls.length :=
    read_loop_calls_pos reads buf_len 0 0 buf
  obtain ⟨m, hm⟩ : ∃ m, (read_buffer buf buf_len reads).calls.length = m + 1 :=
    ⟨_, (Nat.succ_pred_eq_of_pos hpos).symm⟩
  have hlast := hwf _ (read_buffer_call_mem buf buf_len reads m (by omega))
  simp only at hlast
  have hprev : (recv reads 0 m).length ≤ buf_len := by
    cases m with
    | zero => simp [recv_zero]
    | succ k =>
      have := read_loop_continued reads buf_len 0 0 buf k (by
        show k + 1 < (read_buffer buf buf_len reads).calls.length
        omega)
      simp only [Nat.zero_add] at this
      omega
  rw [hm, recv_succ_last, List.length_append, Nat.zero_add]
  omega

theorem read_buffer_continued (buf : List Nat) (buf_len : Nat) (reads : Nat → ReadResult)
    (j : Nat) (hj : j + 1 < (read_buffer buf buf_len reads).calls.length) :
    reads j ≠ .error ∧ (reads j).bytes ≠ [] ∧ (recv reads 0 (j + 1)).length < buf_len := by
  have h := read_loop_continued reads buf_len 0 0 buf j hj
  simpa using h

theorem read_buffer_ret (buf : List Nat) (buf_len : Nat) (reads : Nat → ReadResult) :
    (reads ((read_buffer buf buf_len reads).calls.length - 1) = .error ∧
        (read_buffer buf buf_len reads).ret = some (-1)) ∨
    (∃ a, reads ((read_buffer buf buf_len reads).calls.length - 1) = .data a ∧
        INT_MAX < (recv reads 0 (read_buffer buf buf_len reads).calls.length).length ∧
        (read_buffer buf buf_len reads).ret = none) ∨
    (∃ a, reads ((read_buffer buf buf_len reads).calls.length - 1) = .data a ∧
        ¬ INT_MAX < (recv reads 0 (read_buffer buf buf_len reads).calls.length).length ∧
        (read_buffer buf buf_len reads).ret
          = some (((recv reads 0 (read_buffer buf buf_len reads).calls.length).length : Nat)
              : Int) ∧
        (a = [] ∨
          buf_len ≤ (recv reads 0 (read_buffer buf buf_len reads).calls.length).length)) := by
  have h := read_loop_ret reads buf_len 0 0 buf
  simpa [read_buffer] using h

/-- `read_buffer` returns `-1` exactly when a read it performed failed. -/
theorem read_buffer_error_iff (buf : List Nat) (buf_len : Nat) (reads : Nat → ReadResult) :
    (read_buffer buf buf_len reads).ret = some (-1) ↔
      ∃ j, j < (read_buffer buf buf_len reads).calls.length ∧ reads j = .error := by
  have hpos : 0 < (read_buffer buf buf_len reads).calls.length :=
    read_loop_calls_pos reads buf_len 0 0 buf
  constructor
  · intro hret
    rcases read_buffer_ret buf buf_len reads with h | ⟨a, _, _, h⟩ | ⟨a, _, _, h, _⟩
    · exact ⟨_, by omega, h.1⟩
    · rw [h] at hret; cases hret
    · rw [h] at hret
      have := Option.some.inj hret
      omega
  · rintro ⟨j, hj, he⟩
    by_cases hlast : j + 1 < (read_buffer buf buf_len reads).calls.length
    · exact absurd he (read_buffer_continued buf buf_len reads j hlast).1
    · have hjm : (read_buffer buf buf_len reads).calls.length - 1 = j := by omega
      rcases read_buffer_ret buf buf_len reads with h | ⟨a, h, _⟩ | ⟨a, h, _⟩
      · exact h.2
      · rw [hjm, he] at h; cases h
      · rw [hjm, he] at h; cases h

/-- A read within the range of `int` that met no failure returns the byte
total. -/
theorem read_buffer_ok (buf : List Nat) (buf_len : Nat) (reads : Nat → ReadResult)
    (hin : (recv reads 0 (read_buffer buf buf_len reads).calls.length).length ≤ INT_MAX)
    (hok : ∀ j, j < (read_buffer buf buf_len reads).calls.length → reads j ≠ .error) :
    (read_buffer buf buf_len reads).ret
      = some (((recv reads 0 (read_buffer buf buf_len reads).calls.length).length : Nat) : Int) ∧
    ((reads ((read_buffer buf buf_len reads).calls.length - 1)).bytes = [] ∨
      buf_len ≤ (recv reads 0 (read_buffer buf buf_len reads).calls.length).length) := by
  have hpos : 0 < (read_buffer buf buf_len reads).calls.length :=
    read_loop_calls_pos reads buf_len 0 0 buf
  rcases read_buffer_ret buf buf_len reads with h | ⟨a, _, h, _⟩ | ⟨a, ha, _, h, hs⟩
  · exact absurd h.1 (hok _ (by omega))
  · omega
  · refine ⟨h, ?_⟩
    rcases hs with hs | hs
    · left; rw [ha, hs]; rfl
    · exact Or.inr hs

theorem read_buffer_buf (buf : List Nat) (buf_len : Nat) (reads : Nat → ReadResult) :
    (read_buffer buf buf_len reads).buf
      = writeAt buf 0 (recv reads 0 (read_buffer buf buf_len reads).calls.length) :=
  read_loop_buf reads buf_len 0 0 buf (Nat.zero_le _)

/-! ## Lemmas on C strings -/

theorem cstr_append_nul (a b : List Nat) : cstr (a ++ 0 :: b) = cstr a := by
  induction a with
  | nil => simp [cstr]
  | cons x xs ih =>
    unfold cstr at ih ⊢
    by_cases hx : x = 0
    · simp [hx]
    · simp [hx, ih]

theorem cstr_of_not_mem (a : List Nat) (h : 0 ∉ a) : cstr a = a := by
  induction a with
  | nil => simp [cstr]
  | cons x xs ih =>
    have hx : x ≠ 0 := fun e => h (by simp [e])
    have hxs : 0 ∉ xs := fun e => h (by simp [e])
    have := ih hxs
    unfold cstr at this ⊢
    simp [hx, this]

theorem cstr_set (l : List Nat) (n : Nat) (hn : n < l.length) :
    cstr (l.set n 0) = cstr (l.take n) := by
  rw [List.set_eq_take_append_cons_drop, if_pos hn, cstr_append_nul]

theorem strchr_of_not_mem (l : List Nat) (c : Nat) (h : c ∉ l) : strchr l c = none := by
  induction l with
  | nil => rfl
  | cons x xs ih =>
    have hx : x ≠ c := fun e => h (by simp [e])
    have hxs : c ∉ xs := fun e => h (by simp [e])
    simp [strchr, hx, ih hxs]

theorem strchr_append (l rest : List Nat) (c : Nat) (h0 : 0 ∉ l) (hc : c ∉ l) :
    strchr (l ++ rest) c = (strchr rest c).map (· + l.length) := by
  induction l with
  | nil => simp
  | cons x xs ih =>
    have hx : x ≠ c := fun e => hc (by simp [e])
    have hx0 : x ≠ 0 := fun e => h0 (by simp [e])
    have h0' : 0 ∉ xs := fun e => h0 (by simp [e])
    have hc' : c ∉ xs := fun e => hc (by simp [e])
    have ih' := ih h0' hc'
    show strchr (x :: (xs ++ rest)) c = _
    simp only [strchr, if_neg hx, if_neg hx0]
    rw [ih']
    cases strchr rest c <;> simp [Nat.add_assoc]

theorem strchr_cons_self (c : Nat) (rest : List Nat) : strchr (c :: rest) c = some 0 := by
  simp [strchr]

/-- The first occurrence of `c` is found when no NUL comes before it. -/
theorem strchr_first (l : List Nat) (c k : Nat) (hk : k < l.length) (hc : l[k] = c)
    (h0 : 0 ∉ l.take k) (hfirst : c ∉ l.take k) : strchr l c = some k := by
  have hsplit : l = l.take k ++ l[k] :: l.drop (k + 1) := by
    rw [← List.drop_eq_getElem_cons hk, List.take_append_drop]
  rw [hsplit, strchr_append _ _ _ h0 hfirst, hc]
  simp [strchr, Nat.min_eq_left (Nat.le_of_lt hk)]

/-! ## Lemmas on `communicate_client` -/

theorem content_eq (reads : Nat → ReadResult) :
    content reads = recv reads 0 (client_read reads).calls.length :=
  read_buffer_content _ _ _

/-- After a read that met no failure and took in at most 1023 bytes, the
function holds the byte count and the buffer is the content followed by
zero bytes. -/
theorem client_read_ok (reads : Nat → ReadResult)
    (hok : ∀ c ∈ (client_read reads).calls, c.result ≠ .error)
    (hlen : (content reads).length ≤ BUF_SIZE - 1) :
    (client_read reads).ret = some (((content reads).length : Nat) : Int) ∧
    (client_read reads).buf
      = content reads ++ List.replicate (BUF_SIZE - (content reads).length) 0 := by
  rw [content_eq] at hlen ⊢
  have hok' : ∀ j, j < (client_read reads).calls.length → reads j ≠ .error := by
    intro j hj
    exact hok _ (read_buffer_call_mem _ _ reads j hj)
  refine ⟨(read_buffer_ok _ _ reads ?_ hok').1, ?_⟩
  · have h1 : (recv reads 0 (read_buffer (bzero BUF_SIZE) (BUF_SIZE - 1) reads).calls.length).length
        ≤ 1023 := hlen
    have h2 : (1023 : Nat) ≤ INT_MAX := by decide
    exact Nat.le_trans h1 h2
  · show (read_buffer (bzero BUF_SIZE) (BUF_SIZE - 1) reads).buf = _
    rw [read_buffer_buf]
    simp [writeAt, bzero, client_read]

/-- The outcome of the report in debug mode when the terminator index is
inside the buffer. -/
theorem report_debug (dflag : Int) (client_ip : List Nat) (bytes_read : Nat) (buf : List Nat)
    (hd : dflag ≠ 0)
    (hn : chars_to_print (strchr buf NL) bytes_read < buf.length) :
    report dflag client_ip (bytes_read : Int) buf
      = .printed (chars_to_print (strchr buf NL) bytes_read)
          (cstr (buf.take (chars_to_print (strchr buf NL) bytes_read)))
          (cstr client_ip ++ ascii ": "
            ++ cstr (buf.take (chars_to_print (strchr buf NL) bytes_read)) ++ [NL]) := by
  have h0 : ¬ ((bytes_read : Int) < 0) := by omega
  simp only [report, if_neg h0, Int.toNat_ofNat, if_pos hn, printf_line, cstr_set _ _ hn,
    ne_eq, hd, not_false_eq_true, if_true]

/-- The outcome of the report in debug mode when the terminator index is
outside the buffer. -/
theorem report_out_of_bounds (dflag : Int) (client_ip : List Nat) (bytes_read : Nat)
    (buf : List Nat) (hd : dflag ≠ 0)
    (hn : ¬ chars_to_print (strchr buf NL) bytes_read < buf.length) :
    report dflag client_ip (bytes_read : Int) buf
      = .out_of_bounds (chars_to_print (strchr buf NL) bytes_read) := by
  have h0 : ¬ ((bytes_read : Int) < 0) := by omega
  simp only [report, if_neg h0, Int.toNat_ofNat, if_neg hn, ne_eq, hd, not_false_eq_true,
    if_true]

theorem communicate_client_of_ret (dflag : Int) (reads : Nat → ReadResult)
    (client_ip : List Nat) (v : Int) (h : (client_read reads).ret = some v) :
    communicate_client dflag reads client_ip = report dflag client_ip v (client_read reads).buf := by
  unfold client_read at h
  simp only [communicate_client, h, client_read]

/-- The read of a peer that sends one segment shorter than the room and
closes. -/
theorem client_read_segment (c : List Nat) (hc : c ≠ []) (hlen : c.length < BUF_SIZE - 1) :
    client_read (readsOf [.data c, .data []])
      = ⟨some ((c.length : Nat) : Int), c ++ List.replicate (BUF_SIZE - c.length) 0,
          [⟨0, BUF_SIZE - 1, .data c⟩, ⟨c.length, BUF_SIZE - 1 - c.length, .data []⟩]⟩ := by
  have h0 : readsOf [.data c, .data []] 0 = .data c := rfl
  have h1 : readsOf [.data c, .data []] (0 + 1) = .data [] := rfl
  have hl : c.length ≠ 0 := by simpa using hc
  simp only [BUF_SIZE] at hlen
  have e1 := read_loop_continue (readsOf [.data c, .data []]) (BUF_SIZE - 1) 0 0
    (bzero BUF_SIZE) c h0 (by simp only [INT_MAX]; omega)
    ⟨hl, by simp only [BUF_SIZE]; omega⟩
  have e2 := read_loop_stop (readsOf [.data c, .data []]) (BUF_SIZE - 1) (0 + 1)
    (0 + c.length) (writeAt (bzero BUF_SIZE) 0 c) [] h1
    (by simp only [INT_MAX, List.length_nil]; omega) (by simp)
  rw [client_read, read_buffer, e1, e2]
  have hw : writeAt (writeAt (bzero BUF_SIZE) 0 c) c.length []
      = c ++ List.replicate (BUF_SIZE - c.length) 0 := by
    rw [writeAt_nil]; simp [writeAt, bzero]
  simp only [hw, List.length_nil, Nat.add_zero, Nat.zero_add, Nat.sub_zero]

theorem content_segment (c : List Nat) (hc : c ≠ []) (hlen : c.length < BUF_SIZE - 1) :
    content (readsOf [.data c, .data []]) = c := by
  simp [content, client_read_segment c hc hlen, ReadResult.bytes]

theorem chars_to_print_some (k n : Nat) (h1 : 1 ≤ k) (h2 : k ≤ SIZE_MAX) :
    chars_to_print (some k) n = k - 1 := by
  simp only [chars_to_print, SIZE_MAX] at *
  omega

/-- The report in debug mode on a buffer that holds NUL-free content with
its first newline at index `k ≥ 1`, followed by zero bytes. -/
theorem report_newline (dflag : Int) (client_ip l : List Nat) (z k : Nat) (hd : dflag ≠ 0)
    (hlen : l.length ≤ BUF_SIZE - 1) (hnul : 0 ∉ l) (hk1 : 1 ≤ k) (hnl : l[k]? = some NL)
    (hfirst : NL ∉ l.take k) :
    report dflag client_ip (l.length : Int) (l ++ List.replicate z 0)
      = .printed (k - 1) (l.take (k - 1))
          (cstr client_ip ++ ascii ": " ++ l.take (k - 1) ++ [NL]) := by
  obtain ⟨hk, hget⟩ := List.getElem?_eq_some_iff.mp hnl
  have hkt : List.take k (l ++ List.replicate z 0) = List.take k l :=
    List.take_append_of_le_length (Nat.le_of_lt hk)
  have hs : strchr (l ++ List.replicate z 0) NL = some k := by
    apply strchr_first _ _ k (by rw [List.length_append]; omega)
    · rw [List.getElem_append_left hk]; exact hget
    · rw [hkt]; exact fun h => hnul (List.mem_of_mem_take h)
    · rw [hkt]; exact hfirst
  have hbound : k ≤ SIZE_MAX := by
    simp only [BUF_SIZE] at hlen
    simp only [SIZE_MAX]
    omega
  have hcp : chars_to_print (strchr (l ++ List.replicate z 0) NL) l.length = k - 1 := by
    rw [hs, chars_to_print_some _ _ hk1 hbound]
  have htake : List.take (k - 1) (l ++ List.replicate z 0) = List.take (k - 1) l :=
    List.take_append_of_le_length (by omega)
  have hc : cstr (List.take (k - 1) l) = List.take (k - 1) l :=
    cstr_of_not_mem _ (fun h => hnul (List.mem_of_mem_take h))
  rw [report_debug dflag client_ip l.length _ hd (by rw [hcp, List.length_append]; omega),
    hcp, htake, hc]

/-- The report in debug mode on a buffer that holds newline-free content
followed by at least one zero byte. -/
theorem report_no_newline (dflag : Int) (client_ip l : List Nat) (z : Nat) (hd : dflag ≠ 0)
    (hz : 0 < z) (hnl : NL ∉ l) :
    report dflag client_ip (l.length : Int) (l ++ List.replicate z 0)
      = .printed l.length (cstr l) (cstr client_ip ++ ascii ": " ++ cstr l ++ [NL]) := by
  have hs : strchr (l ++ List.replicate z 0) NL = none := by
    apply strchr_of_not_mem
    intro h
    rcases List.mem_append.mp h with h | h
    · exact hnl h
    · have := (List.mem_replicate.mp h).2
      simp [NL] at this
  have hcp : chars_to_print (strchr (l ++ List.replicate z 0) NL) l.length = l.length := by
    rw [hs]; rfl
  rw [report_debug dflag client_ip l.length _ hd
    (by rw [hcp, List.length_append, List.length_replicate]; omega), hcp, List.take_left]

/-- With reads that stay within the count asked for, `communicate_client`
takes in at most 1023 bytes. -/
theorem content_length_le (reads : Nat → ReadResult)
    (hwf : ∀ c ∈ (client_read reads).calls, c.result.bytes.length ≤ c.count) :
    (content reads).length ≤ BUF_SIZE - 1 := by
  rw [content_eq]
  exact read_buffer_total_le _ _ reads hwf

/-- Every read performed stores its bytes below the running total after
it, which stays within `buf_len`. -/
theorem read_buffer_store_bound (buf : List Nat) (buf_len : Nat) (reads : Nat → ReadResult)
    (hwf : ∀ c ∈ (read_buffer buf buf_len reads).calls, c.result.bytes.length ≤ c.count) :
    ∀ c ∈ (read_buffer buf buf_len reads).calls,
      c.offset + c.result.bytes.length ≤ buf_len := by
  intro c hc
  have htot := read_buffer_total_le buf buf_len reads hwf
  rw [read_buffer_calls] at hc
  obtain ⟨j, hj, rfl⟩ := List.mem_map.mp hc
  have hj' := List.mem_range.mp hj
  show (recv reads 0 j).length + (reads j).bytes.length ≤ buf_len
  by_cases hlast : j + 1 < (read_buffer buf buf_len reads).calls.length
  · have := (read_buffer_continued buf buf_len reads j hlast).2.2
    rw [recv_succ_last, List.length_append, Nat.zero_add] at this
    omega
  · have hjm : (read_buffer buf buf_len reads).calls.length = j + 1 := by omega
    rw [hjm, recv_succ_last, List.length_append, Nat.zero_add] at htot
    exact htot

/-- The read of a peer that fills the whole room of 1023 bytes at once. -/
theorem client_read_full (c : List Nat) (hlen : c.length = BUF_SIZE - 1) :
    client_read (fun _ => .data c)
      = ⟨some ((c.length : Nat) : Int), c ++ List.replicate (BUF_SIZE - c.length) 0,
          [⟨0, BUF_SIZE - 1, .data c⟩]⟩ := by
  simp only [BUF_SIZE] at hlen
  have e := read_loop_stop (fun _ => ReadResult.data c) (BUF_SIZE - 1) 0 0 (bzero BUF_SIZE) c rfl
    (by simp only [INT_MAX]; omega) (by simp only [BUF_SIZE]; omega)
  rw [client_read, read_buffer, e]
  have hw : writeAt (bzero BUF_SIZE) 0 c = c ++ List.replicate (BUF_SIZE - c.length) 0 := by
    simp [writeAt, bzero]
  simp only [hw, Nat.zero_add, Nat.sub_zero]

theorem strchr_some (l : List Nat) (c k : Nat) (h : strchr l c = some k) :
    l[k]? = some c ∧ c ∉ l.take k ∧ 0 ∉ l.take k := by
  induction l generalizing k with
  | nil => cases h
  | cons x xs ih =>
    by_cases hx : x = c
    · simp only [strchr, if_pos hx, Option.some.injEq] at h
      subst h
      simp [hx]
    · by_cases hx0 : x = 0
      · simp only [strchr, if_neg hx, if_pos hx0] at h
        cases h
      · simp only [strchr, if_neg hx, if_neg hx0, Option.map_eq_some'] at h
        obtain ⟨j, hj, rfl⟩ := h
        obtain ⟨h1, h2, h3⟩ := ih j hj
        refine ⟨by simpa using h1, ?_, ?_⟩
        · simp only [List.take_succ_cons, List.mem_cons, not_or]
          exact ⟨fun e => hx e.symm, h2⟩
        · simp only [List.take_succ_cons, List.mem_cons, not_or]
          exact ⟨fun e => hx0 e.symm, h3⟩

theorem strchr_none (l : List Nat) (c : Nat) (h : strchr l c = none) : c ∉ cstr l := by
  induction l with
  | nil => simp [cstr]
  | cons x xs ih =>
    by_cases hx : x = c
    · simp [strchr, hx] at h
    · by_cases hx0 : x = 0
      · simp [cstr, hx0]
      · simp only [strchr, if_neg hx, if_neg hx0, Option.map_eq_none'] at h
        have := ih h
        unfold cstr at this ⊢
        simp only [List.takeWhile_cons, bne_iff_ne, ne_eq, hx0, not_false_eq_true,
          decide_True, if_true, List.mem_cons, not_or]
        exact ⟨fun e => hx e.symm, this⟩

theorem cstr_subset (l : List Nat) (x : Nat) (h : x ∈ cstr l) : x ∈ l :=
  (List.takeWhile_sublist _).subset h

/-- What `communicate_client` does, for reads that stay within the count
asked for: after a failed read it prints nothing; with `dflag` zero it
prints nothing; in debug mode it stores the terminator at an index of at
most 1023 and prints the peer address, `": "`, a line without newline and a
newline, unless the content begins with a newline, in which case the
terminator index is `SIZE_MAX`, outside the buffer. -/
theorem communicate_client_outcome (dflag : Int) (reads : Nat → ReadResult)
    (client_ip : List Nat)
    (hwf : ∀ c ∈ (client_read reads).calls, c.result.bytes.length ≤ c.count) :
    ((∃ c ∈ (client_read reads).calls, c.result = .error) →
      communicate_client dflag reads client_ip = .read_failed) ∧
    ((∀ c ∈ (client_read reads).calls, c.result ≠ .error) → dflag = 0 →
      communicate_client dflag reads client_ip = .quiet) ∧
    ((∀ c ∈ (client_read reads).calls, c.result ≠ .error) → dflag ≠ 0 →
      (content reads).head? = some NL →
      communicate_client dflag reads client_ip = .out_of_bounds SIZE_MAX) ∧
    ((∀ c ∈ (client_read reads).calls, c.result ≠ .error) → dflag ≠ 0 →
      (content reads).head? ≠ some NL →
      ∃ n line, n ≤ BUF_SIZE - 1 ∧ NL ∉ line ∧
        communicate_client dflag reads client_ip
          = .printed n line (cstr client_ip ++ ascii ": " ++ line ++ [NL])) := by
  have hlen := content_length_le reads hwf
  have hlen' : (content reads).length ≤ 1023 := hlen
  refine ⟨?_, ?_, ?_, ?_⟩
  · rintro ⟨c, hc, he⟩
    have hret : (client_read reads).ret = some (-1) := by
      apply (read_buffer_error_iff _ _ reads).mpr
      have hc' := hc
      unfold client_read at hc'
      rw [read_buffer_calls] at hc'
      obtain ⟨j, hj, rfl⟩ := List.mem_map.mp hc'
      exact ⟨j, List.mem_range.mp hj, he⟩
    rw [communicate_client_of_ret _ _ _ _ hret]
    simp [report]
  · intro hok hd
    obtain ⟨hret, _⟩ := client_read_ok reads hok hlen
    rw [communicate_client_of_ret _ _ _ _ hret]
    have h0 : ¬ (((content reads).length : Nat) : Int) < 0 := by omega
    simp [report, h0, hd]
  · intro hok hd hhead
    obtain ⟨hret, hbuf⟩ := client_read_ok reads hok hlen
    obtain ⟨rest, hrest⟩ : ∃ rest, content reads = NL :: rest := by
      cases hc : content reads with
      | nil => rw [hc] at hhead; cases hhead
      | cons x xs =>
        rw [hc] at hhead
        simp only [List.head?_cons, Option.some.injEq] at hhead
        exact ⟨xs, by rw [hhead]⟩
    have hs : strchr (client_read reads).buf NL = some 0 := by
      rw [hbuf, hrest]; exact strchr_cons_self NL _
    have hcp : chars_to_print (strchr (client_read reads).buf NL) (content reads).length
        = SIZE_MAX := by
      rw [hs]; rfl
    have hbl : (client_read reads).buf.length = 1024 := by
      rw [hbuf, List.length_append, List.length_replicate]
      simp only [BUF_SIZE]
      omega
    rw [communicate_client_of_ret _ _ _ _ hret,
      report_out_of_bounds dflag client_ip _ _ hd (by rw [hcp, hbl]; decide), hcp]
  · intro hok hd hhead
    obtain ⟨hret, hbuf⟩ := client_read_ok reads hok hlen
    have hbl : (client_read reads).buf.length = 1024 := by
      rw [hbuf, List.length_append, List.length_replicate]
      simp only [BUF_SIZE]
      omega
    rw [communicate_client_of_ret _ _ _ _ hret]
    cases hs : strchr (client_read reads).buf NL with
    | none =>
      have hcp : chars_to_print (strchr (client_read reads).buf NL) (content reads).length
          = (content reads).length := by
        rw [hs]; rfl
      refine ⟨(content reads).length, cstr (content reads), hlen, ?_, ?_⟩
      · have hnot := strchr_none _ _ hs
        rw [hbuf] at hnot
        obtain ⟨z, hz⟩ : ∃ z, BUF_SIZE - (content reads).length = z + 1 :=
          ⟨BUF_SIZE - (content reads).length - 1, by simp only [BUF_SIZE]; omega⟩
        rw [hz, List.replicate_succ, cstr_append_nul] at hnot
        exact hnot
      · rw [report_debug dflag client_ip _ _ hd (by rw [hcp, hbl]; omega), hcp]
        have : List.take (content reads).length (client_read reads).buf = content reads := by
          rw [hbuf, List.take_left]
        rw [this]
    | some k =>
      obtain ⟨hget, hnl, _⟩ := strchr_some _ _ _ hs
      have hk : k < 1024 := by
        rw [← hbl]
        exact (List.getElem?_eq_some_iff.mp hget).1
      have hk0 : k ≠ 0 := by
        rintro rfl
        apply hhead
        rw [hbuf] at hget
        cases hc : content reads with
        | nil =>
          rw [hc, List.nil_append, List.getElem?_replicate] at hget
          split at hget
          · exact absurd (Option.some.inj hget) (by decide)
          · cases hget
        | cons x xs =>
          rw [hc] at hget
          simpa using hget
      have hcp : chars_to_print (strchr (client_read reads).buf NL) (content reads).length
          = k - 1 := by
        rw [hs, chars_to_print_some _ _ (by omega) (by simp only [SIZE_MAX]; omega)]
      refine ⟨k - 1, cstr ((client_read reads).buf.take (k - 1)), ?_, ?_, ?_⟩
      · simp only [BUF_SIZE]; omega
      · intro hmem
        have h1 := cstr_subset _ _ hmem
        have e : List.take (k - 1) (client_read reads).buf
            = List.take (k - 1) (List.take k (client_read reads).buf) := by
          rw [List.take_take, Nat.min_eq_left (by omega)]
        rw [e] at h1
        exact hnl (List.mem_of_mem_take h1)
      · rw [report_debug dflag client_ip _ _ hd (by rw [hcp, hbl]; omega), hcp]

theorem content_full (c : List Nat) (hlen : c.length = BUF_SIZE - 1) :
    content (fun _ => .data c) = c := by
  simp [content, client_read_full c hlen, ReadResult.bytes]

/-- With `dflag` zero nothing is stored and nothing printed after a read
that succeeded. -/
theorem report_quiet (client_ip : List Nat) (bytes_read : Nat) (buf : List Nat) :
    report 0 client_ip (bytes_read : Int) buf = .quiet := by
  have h0 : ¬ ((bytes_read : Int) < 0) := by omega
  simp [report, h0]

/-! ## Lemmas on `handle_client` -/

theorem cstr_UNKNOWN_IP : cstr UNKNOWN_IP = UNKNOWN_IP := by decide

/-- Whatever the destination held, copying the sentinel with room for its
terminator leaves the C string `X.X.X.X`. -/
theorem cstr_strncpy_unknown (dst : List Nat) (n : Nat) (hn : 8 ≤ n) :
    cstr (strncpy dst UNKNOWN_IP n) = UNKNOWN_IP := by
  obtain ⟨m, rfl⟩ : ∃ m, n = m + 8 := ⟨n - 8, by omega⟩
  have hsrc : (cstr UNKNOWN_IP ++ List.replicate (m + 8) 0).take (m + 8)
      = UNKNOWN_IP ++ 0 :: List.replicate m 0 := by
    rw [cstr_UNKNOWN_IP]
    have hl : UNKNOWN_IP.length = 7 := by decide
    rw [List.take_append_eq_append_take, hl, List.take_of_length_le (by rw [hl]; omega),
      show m + 8 - 7 = m + 1 by omega, List.take_replicate, Nat.min_eq_left (by omega),
      List.replicate_succ]
  unfold strncpy writeAt
  rw [hsrc, List.take_zero, List.nil_append, List.append_assoc, List.cons_append,
    cstr_append_nul, cstr_UNKNOWN_IP]

/-- `communicate_client` uses `client_ip` only as a C string. -/
theorem communicate_client_cstr (dflag : Int) (reads : Nat → ReadResult)
    (ip ip' : List Nat) (h : cstr ip = cstr ip') :
    communicate_client dflag reads ip = communicate_client dflag reads ip' := by
  simp only [communicate_client, report, printf_line, h]

/-! ## Claims on `read_buffer` -/

/-- What `read_buffer` does whenever the byte total of the reads it
performs fits the type `int`: it performs reads number `0` to `m - 1` of the
sequence, each at the running byte total and asking for the room left; it
returns `-1` if and only if one of these reads failed; otherwise it returns
the byte total of these reads and the buffer starts with the chunks
received, in order; every read but the last delivered at least one byte and
left the total below `buf_len`, and the last one failed, delivered nothing,
or brought the total to `buf_len` or more. -/
theorem read_buffer_within_int (buf : List Nat) (buf_len : Nat) (reads : Nat → ReadResult)
    (hin : (recv reads 0 (read_buffer buf buf_len reads).calls.length).length ≤ INT_MAX) :
    0 < (read_buffer buf buf_len reads).calls.length ∧
    (read_buffer buf buf_len reads).calls
      = (List.range (read_buffer buf buf_len reads).calls.length).map (fun j =>
          (⟨(recv reads 0 j).length, buf_len - (recv reads 0 j).length, reads j⟩ : ReadCall)) ∧
    ((read_buffer buf buf_len reads).ret = some (-1) ↔
      ∃ j, j < (read_buffer buf buf_len reads).calls.length ∧ reads j = .error) ∧
    ((∀ j, j < (read_buffer buf buf_len reads).calls.length → reads j ≠ .error) →
      (read_buffer buf buf_len reads).ret
        = some (((recv reads 0 (read_buffer buf buf_len reads).calls.length).length : Nat) : Int) ∧
      (read_buffer buf buf_len reads).buf.take
          (recv reads 0 (read_buffer buf buf_len reads).calls.length).length
        = recv reads 0 (read_buffer buf buf_len reads).calls.length) ∧
    (∀ j, j + 1 < (read_buffer buf buf_len reads).calls.length →
      reads j ≠ .error ∧ (reads j).bytes ≠ [] ∧ (recv reads 0 (j + 1)).length < buf_len) ∧
    (reads ((read_buffer buf buf_len reads).calls.length - 1) = .error ∨
      (reads ((read_buffer buf buf_len reads).calls.length - 1)).bytes = [] ∨
      buf_len ≤ (recv reads 0 (read_buffer buf buf_len reads).calls.length).length) := by
  refine ⟨read_loop_calls_pos reads buf_len 0 0 buf, read_buffer_calls buf buf_len reads,
    read_buffer_error_iff buf buf_len reads, ?_, read_buffer_continued buf buf_len reads, ?_⟩
  · intro hok
    refine ⟨(read_buffer_ok buf buf_len reads hin hok).1, ?_⟩
    rw [read_buffer_buf, take_writeAt_zero]
  · rcases read_buffer_ret buf buf_len reads with h | ⟨a, _, h, _⟩ | ⟨a, ha, _, _, hs⟩
    · exact Or.inl h.1
    · omega
    · right
      rcases hs with hs | hs
      · left; rw [ha, hs]; rfl
      · exact Or.inr hs

theorem threeBytes_read :
    read_buffer (bzero 8) 7 threeBytes
      = ⟨some 3, [104, 105, NL, 0, 0, 0, 0, 0],
          [⟨0, 7, .data [104, 105]⟩, ⟨2, 5, .data [NL]⟩, ⟨3, 4, .data []⟩]⟩ := by
  simp [read_buffer, read_loop, threeBytes, readsOf, INT_MAX, writeAt, bzero, NL]

theorem gib_len : (List.replicate 1073741824 0 : List Nat).length = 1073741824 :=
  List.length_replicate _ _

theorem gibReads_read :
    read_buffer (List.replicate 2147483648 0) 2147483648 gibReads
      = ⟨none,
          writeAt (writeAt (List.replicate 2147483648 0) 0 (List.replicate 1073741824 0))
            1073741824 (List.replicate 1073741824 0),
          [⟨0, 2147483648, .data (List.replicate 1073741824 0)⟩,
           ⟨1073741824, 1073741824, .data (List.replicate 1073741824 0)⟩]⟩ := by
  have h0 : gibReads 0 = .data (List.replicate 1073741824 0) := rfl
  have h1 : gibReads (0 + 1) = .data (List.replicate 1073741824 0) := rfl
  have e1 := read_loop_continue gibReads 2147483648 0 0 (List.replicate 2147483648 0) _ h0
    (by rw [gib_len]; decide) (by rw [gib_len]; decide)
  have e2 := read_loop_overflow gibReads 2147483648 (0 + 1)
    (0 + (List.replicate 1073741824 0).length)
    (writeAt (List.replicate 2147483648 0) 0 (List.replicate 1073741824 0)) _ h1
    (by rw [gib_len]; decide)
  rw [read_buffer, e1, e2, gib_len]

theorem gib_recv : (recv gibReads 0 2).length = 2147483648 := by
  rw [recv_succ, recv_succ, recv_zero]
  show ((List.replicate 1073741824 0 : List Nat)
    ++ ((List.replicate 1073741824 0 : List Nat) ++ [])).length = 2147483648
  rw [List.length_append, List.length_append, gib_len, List.length_nil]

/-- C5 at the failing input: with `buf_len = 2^31`, a buffer of that size
and a peer that delivers one GiB at each read, `read_buffer` performs two
reads, neither fails and each stays within the count asked for, the byte
total is `2^31`, and the function returns neither `-1` nor that total: the
sum `bytes_read += rval` (util.c:90) is outside the range of `int`. -/
theorem read_buffer_sum_overflow :
    (read_buffer (List.replicate 2147483648 0) 2147483648 gibReads).calls.length = 2 ∧
    (∀ c ∈ (read_buffer (List.replicate 2147483648 0) 2147483648 gibReads).calls,
      c.result ≠ .error ∧ c.result.bytes.length ≤ c.count) ∧
    (recv gibReads 0 2).length = 2147483648 ∧
    (read_buffer (List.replicate 2147483648 0) 2147483648 gibReads).ret ≠ some (-1) ∧
    (read_buffer (List.replicate 2147483648 0) 2147483648 gibReads).ret
      ≠ some (((recv gibReads 0 2).length : Nat) : Int) := by
  rw [gibReads_read]
  refine ⟨rfl, ?_, gib_recv, fun h => Option.noConfusion h, fun h => Option.noConfusion h⟩
  intro c hc
  rcases List.mem_cons.mp hc with rfl | hc
  · refine ⟨fun h => ReadResult.noConfusion h, ?_⟩
    show (List.replicate 1073741824 0 : List Nat).length ≤ 2147483648
    rw [gib_len]; decide
  · rcases List.mem_cons.mp hc with rfl | hc
    · refine ⟨fun h => ReadResult.noConfusion h, ?_⟩
      show (List.replicate 1073741824 0 : List Nat).length ≤ 1073741824
      rw [gib_len]
    · cases hc
/-! ## Claims on `communicate_client` -/

theorem helloReads_read :
    client_read helloReads
      = ⟨some 6, ascii "hello\n" ++ List.replicate 1018 0,
          [⟨0, 1023, .data (ascii "hello\n")⟩, ⟨6, 1017, .data []⟩]⟩ :=
  client_read_segment (ascii "hello\n") (by decide) (by decide)

theorem pingReads_read :
    client_read pingReads
      = ⟨some 5, ascii "ping\n" ++ List.replicate 1019 0,
          [⟨0, 1023, .data (ascii "ping\n")⟩, ⟨5, 1018, .data []⟩]⟩ :=
  client_read_segment (ascii "ping\n") (by decide) (by decide)

theorem nulReads_read :
    client_read nulReads
      = ⟨some 3, [97, 0, 98] ++ List.replicate 1021 0,
          [⟨0, 1023, .data [97, 0, 98]⟩, ⟨3, 1020, .data []⟩]⟩ :=
  client_read_segment [97, 0, 98] (by decide) (by decide)

theorem newlineReads_read :
    client_read newlineReads
      = ⟨some 1, [NL] ++ List.replicate 1023 0,
          [⟨0, 1023, .data [NL]⟩, ⟨1, 1022, .data []⟩]⟩ :=
  client_read_segment [NL] (by decide) (by decide)

theorem newlinePingReads_read :
    client_read newlinePingReads
      = ⟨some 6, ascii "\nping\n" ++ List.replicate 1018 0,
          [⟨0, 1023, .data (ascii "\nping\n")⟩, ⟨6, 1017, .data []⟩]⟩ :=
  client_read_segment (ascii "\nping\n") (by decide) (by decide)

/-- C1: when the reads of `communicate_client` met no failure and took in
at most 1023 bytes, none of them NUL, with the first newline at index
`k ≥ 1`, then in debug mode the terminator is stored at index `k - 1` and
the line reported is exactly the first `k - 1` bytes of the content; the
output is the peer address, `": "`, these bytes and a newline. -/
theorem line_with_newline (dflag : Int) (reads : Nat → ReadResult) (client_ip : List Nat)
    (k : Nat) (hd : dflag ≠ 0)
    (hok : ∀ c ∈ (client_read reads).calls, c.result ≠ .error)
    (hlen : (content reads).length ≤ BUF_SIZE - 1)
    (hnul : 0 ∉ content reads)
    (hk1 : 1 ≤ k) (hnl : (content reads)[k]? = some NL)
    (hfirst : NL ∉ (content reads).take k) :
    communicate_client dflag reads client_ip
      = .printed (k - 1) ((content reads).take (k - 1))
          (cstr client_ip ++ ascii ": " ++ (content reads).take (k - 1) ++ [NL]) := by
  obtain ⟨hret, hbuf⟩ := client_read_ok reads hok hlen
  rw [communicate_client_of_ret _ _ _ _ hret, hbuf]
  exact report_newline dflag client_ip _ _ k hd hlen hnul hk1 hnl hfirst

/-- Witness of C1: the content `"hello\n"` is reported as `"hell"`. -/
theorem line_with_newline_witness :
    (1 : Int) ≠ 0 ∧
    (∀ c ∈ (client_read helloReads).calls, c.result ≠ .error) ∧
    content helloReads = ascii "hello\n" ∧
    (content helloReads).length ≤ BUF_SIZE - 1 ∧
    0 ∉ content helloReads ∧
    1 ≤ 5 ∧ (content helloReads)[5]? = some NL ∧
    NL ∉ (content helloReads).take 5 ∧
    communicate_client 1 helloReads (ascii "127.0.0.1")
      = .printed 4 (ascii "hell") (ascii "127.0.0.1: hell\n") :=
  have hc : content helloReads = ascii "hello\n" :=
    content_segment (ascii "hello\n") (by decide) (by decide)
  have h1 : (1 : Int) ≠ 0 := by decide
  have h2 : ∀ c ∈ (client_read helloReads).calls, c.result ≠ .error := by
    rw [helloReads_read]; decide
  have h3 : (content helloReads).length ≤ BUF_SIZE - 1 := by rw [hc]; decide
  have h4 : 0 ∉ content helloReads := by rw [hc]; decide
  have h5 : (content helloReads)[5]? = some NL := by rw [hc]; decide
  have h6 : NL ∉ (content helloReads).take 5 := by rw [hc]; decide
  have h := line_with_newline 1 helloReads (ascii "127.0.0.1") 5 h1 h2 h3 h4 (by decide) h5 h6
  ⟨h1, h2, hc, h3, h4, by decide, h5, h6, by rw [h, hc]; decide⟩

/-- C2, for content without NUL: when the reads of `communicate_client` met
no failure and took in `n ≤ 1023` bytes, none of them a newline or NUL,
then in debug mode the terminator is stored at index `n` and the line
reported is exactly the `n` bytes read. -/
theorem line_without_newline (dflag : Int) (reads : Nat → ReadResult) (client_ip : List Nat)
    (hd : dflag ≠ 0)
    (hok : ∀ c ∈ (client_read reads).calls, c.result ≠ .error)
    (hlen : (content reads).length ≤ BUF_SIZE - 1)
    (hnl : NL ∉ content reads)
    (hnul : 0 ∉ content reads) :
    communicate_client dflag reads client_ip
      = .printed (content reads).length (content reads)
          (cstr client_ip ++ ascii ": " ++ content reads ++ [NL]) := by
  obtain ⟨hret, hbuf⟩ := client_read_ok reads hok hlen
  have hz : 0 < BUF_SIZE - (content reads).length := by
    simp only [BUF_SIZE] at hlen ⊢
    omega
  rw [communicate_client_of_ret _ _ _ _ hret, hbuf,
    report_no_newline dflag client_ip _ _ hd hz hnl, cstr_of_not_mem _ hnul]

/-- Witness of C2: the content `"ping"`, sent without a newline, is
reported whole. -/
theorem line_without_newline_witness :
    (1 : Int) ≠ 0 ∧
    (∀ c ∈ (client_read (readsOf [.data (ascii "ping"), .data []])).calls,
      c.result ≠ .error) ∧
    (content (readsOf [.data (ascii "ping"), .data []])).length ≤ BUF_SIZE - 1 ∧
    NL ∉ content (readsOf [.data (ascii "ping"), .data []]) ∧
    0 ∉ content (readsOf [.data (ascii "ping"), .data []]) ∧
    communicate_client 1 (readsOf [.data (ascii "ping"), .data []]) (ascii "127.0.0.1")
      = .printed 4 (ascii "ping") (ascii "127.0.0.1: ping\n") :=
  have hc : content (readsOf [.data (ascii "ping"), .data []]) = ascii "ping" :=
    content_segment (ascii "ping") (by decide) (by decide)
  have h1 : (1 : Int) ≠ 0 := by decide
  have h2 : ∀ c ∈ (client_read (readsOf [.data (ascii "ping"), .data []])).calls,
      c.result ≠ .error := by
    rw [client_read_segment (ascii "ping") (by decide) (by decide)]; decide
  have h3 : (content (readsOf [.data (ascii "ping"), .data []])).length ≤ BUF_SIZE - 1 := by
    rw [hc]; decide
  have h4 : NL ∉ content (readsOf [.data (ascii "ping"), .data []]) := by rw [hc]; decide
  have h5 : 0 ∉ content (readsOf [.data (ascii "ping"), .data []]) := by rw [hc]; decide
  have h := line_without_newline 1 (readsOf [.data (ascii "ping"), .data []])
    (ascii "127.0.0.1") h1 h2 h3 h4 h5
  ⟨h1, h2, h3, h4, h5, by rw [h, hc]; decide⟩

/-- Counterexample to C2 as stated: the three bytes `a`, NUL, `b` are read
without failure and hold no newline, yet in debug mode the line reported is
the single byte `a`, fewer than the three bytes read. -/
theorem line_without_newline_nul_counterexample :
    (∀ c ∈ (client_read nulReads).calls, c.result ≠ .error) ∧
    content nulReads = [97, 0, 98] ∧
    NL ∉ content nulReads ∧
    communicate_client 1 nulReads (ascii "127.0.0.1")
      = .printed 3 [97] (ascii "127.0.0.1: a\n") := by
  have hc : content nulReads = [97, 0, 98] :=
    content_segment [97, 0, 98] (by decide) (by decide)
  refine ⟨by rw [nulReads_read]; decide, hc, by rw [hc]; decide, ?_⟩
  have hret : (client_read nulReads).ret = some 3 := by rw [nulReads_read]
  have hbuf : (client_read nulReads).buf = [97, 0, 98] ++ List.replicate 1021 0 := by
    rw [nulReads_read]
  have hs : strchr ([97, 0, 98] ++ List.replicate 1021 0) NL = none := by
    simp [strchr, NL]
  have hcp : chars_to_print (strchr ([97, 0, 98] ++ List.replicate 1021 0) NL) 3 = 3 := by
    rw [hs]; rfl
  rw [communicate_client_of_ret _ _ _ _ hret, hbuf]
  rw [show (3 : Int) = ((3 : Nat) : Int) from rfl,
    report_debug 1 _ 3 _ (by decide)
      (by rw [hcp, List.length_append, List.length_replicate]; decide), hcp]
  decide

/-- C10 at the failing input: for a peer that sends a single newline, in
debug mode, `chars_to_print` is `0 - 1` as a `size_t`, that is `SIZE_MAX`,
which is not at most 1023: the store of the terminator is outside `buf`. -/
theorem terminator_index_leading_newline :
    (∀ c ∈ (client_read newlineReads).calls, c.result ≠ .error) ∧
    content newlineReads = [NL] ∧
    strchr (client_read newlineReads).buf NL = some 0 ∧
    chars_to_print (some 0) 1 = SIZE_MAX ∧
    ¬ SIZE_MAX ≤ BUF_SIZE - 1 ∧
    communicate_client 1 newlineReads (ascii "127.0.0.1") = .out_of_bounds SIZE_MAX := by
  have hret : (client_read newlineReads).ret = some 1 := by rw [newlineReads_read]
  have hbuf : (client_read newlineReads).buf = [NL] ++ List.replicate 1023 0 := by
    rw [newlineReads_read]
  have hs : strchr ([NL] ++ List.replicate 1023 0) NL = some 0 :=
    strchr_cons_self NL _
  have hcp : chars_to_print (strchr ([NL] ++ List.replicate 1023 0) NL) 1 = SIZE_MAX := by
    rw [hs]; decide
  refine ⟨by rw [newlineReads_read]; decide, content_segment [NL] (by decide) (by decide),
    by rw [hbuf, hs], by decide, by decide, ?_⟩
  rw [communicate_client_of_ret _ _ _ _ hret, hbuf]
  exact (report_out_of_bounds 1 _ 1 _ (by decide)
    (by rw [hcp, List.length_append, List.length_replicate]; decide)).trans (by rw [hcp])

/-- C6 at the claim's own input and at a failing one: with debug mode on,
peer `127.0.0.1` sending `"ping\n"` yields the output line
`127.0.0.1: pin`; the same peer sending a newline followed by `"ping\n"`
makes the terminator store fall outside `buf` (index `SIZE_MAX`), so that no
output line is defined. -/
theorem report_format_leading_newline :
    communicate_client 1 pingReads (ascii "127.0.0.1")
      = .printed 3 (ascii "pin") (ascii "127.0.0.1: pin\n") ∧
    (∀ c ∈ (client_read newlinePingReads).calls, c.result ≠ .error) ∧
    communicate_client 1 newlinePingReads (ascii "127.0.0.1") = .out_of_bounds SIZE_MAX ∧
    (communicate_client 1 newlinePingReads (ascii "127.0.0.1")).stdout = none := by
  have hp : communicate_client 1 pingReads (ascii "127.0.0.1")
      = .printed 3 (ascii "pin") (ascii "127.0.0.1: pin\n") := by
    have hret : (client_read pingReads).ret = some ((5 : Nat) : Int) := by
      rw [pingReads_read]; rfl
    have hbuf : (client_read pingReads).buf = ascii "ping\n" ++ List.replicate 1019 0 := by
      rw [pingReads_read]
    rw [communicate_client_of_ret _ _ _ _ hret, hbuf]
    have := report_newline 1 (ascii "127.0.0.1") (ascii "ping\n") 1019 4 (by decide)
      (by decide) (by decide) (by decide) (by decide) (by decide)
    rw [show ((5 : Nat) : Int) = (((ascii "ping\n").length : Nat) : Int) from rfl, this]
    decide
  have hn : communicate_client 1 newlinePingReads (ascii "127.0.0.1")
      = .out_of_bounds SIZE_MAX := by
    have hret : (client_read newlinePingReads).ret = some 6 := by rw [newlinePingReads_read]
    have hbuf : (client_read newlinePingReads).buf
        = ascii "\nping\n" ++ List.replicate 1018 0 := by
      rw [newlinePingReads_read]
    have hs : strchr (ascii "\nping\n" ++ List.replicate 1018 0) NL = some 0 :=
      strchr_cons_self NL _
    have hcp : chars_to_print (strchr (ascii "\nping\n" ++ List.replicate 1018 0) NL) 6
        = SIZE_MAX := by
      rw [hs]; decide
    rw [communicate_client_of_ret _ _ _ _ hret, hbuf]
    exact (report_out_of_bounds 1 _ 6 _ (by decide)
      (by rw [hcp, List.length_append, List.length_replicate]; decide)).trans (by rw [hcp])
  refine ⟨hp, by rw [newlinePingReads_read]; decide, hn, ?_⟩
  rw [hn]; rfl

theorem floodReads_read :
    client_read floodReads
      = ⟨some 1023, List.replicate 1023 97 ++ List.replicate 1 0,
          [⟨0, 1023, .data (List.replicate 1023 97)⟩]⟩ := by
  have h := client_read_full (List.replicate 1023 97) (List.length_replicate _ _)
  rw [List.length_replicate] at h
  exact h

/-- C4, amended in its second half: when each read performed returns at most
the count it was asked for, the `read_buffer` call of `communicate_client`
(`buf_len = 1023`) returns `-1` or a value of at most 1023, every read
stores its bytes at indices below 1023, and the buffer keeps its 1024 bytes
with a zero at index 1023.  Hence when every read performed delivers at
least one byte and no newline (a client with 1024 or more bytes to send),
exactly 1023 bytes are taken in and, in debug mode, `chars_to_print` is 1023
and the terminator is stored at index 1023, inside the buffer; the line
reported is the C string of these 1023 bytes, so it has exactly 1023 bytes
when none of them is NUL. -/
theorem read_bound (reads : Nat → ReadResult)
    (hwf : ∀ c ∈ (client_read reads).calls, c.result.bytes.length ≤ c.count) :
    ((client_read reads).ret = some (-1) ∨
      ∃ n : Nat, (client_read reads).ret = some (n : Int) ∧ n ≤ BUF_SIZE - 1) ∧
    (∀ c ∈ (client_read reads).calls, c.offset + c.result.bytes.length ≤ BUF_SIZE - 1) ∧
    (client_read reads).buf.length = BUF_SIZE ∧
    (client_read reads).buf[BUF_SIZE - 1]? = some 0 ∧
    ((∀ c ∈ (client_read reads).calls, c.result.bytes ≠ [] ∧ NL ∉ c.result.bytes) →
      ∀ (dflag : Int) (client_ip : List Nat), dflag ≠ 0 →
        (content reads).length = BUF_SIZE - 1 ∧
        BUF_SIZE - 1 < BUF_SIZE ∧
        communicate_client dflag reads client_ip
          = .printed (BUF_SIZE - 1) (cstr (content reads))
              (cstr client_ip ++ ascii ": " ++ cstr (content reads) ++ [NL]) ∧
        (0 ∉ content reads → (cstr (content reads)).length = BUF_SIZE - 1)) := by
  have hlen := content_length_le reads hwf
  have hbuf : (client_read reads).buf
      = content reads ++ List.replicate (BUF_SIZE - (content reads).length) 0 := by
    rw [content_eq]
    show (read_buffer (bzero BUF_SIZE) (BUF_SIZE - 1) reads).buf = _
    rw [read_buffer_buf]
    simp [writeAt, bzero, client_read]
  have hlen' : (content reads).length ≤ 1023 := hlen
  refine ⟨?_, read_buffer_store_bound _ _ reads hwf, ?_, ?_, ?_⟩
  · rcases read_buffer_ret (bzero BUF_SIZE) (BUF_SIZE - 1) reads with h | ⟨a, _, h, _⟩ |
      ⟨a, _, _, h, _⟩
    · exact Or.inl h.2
    · have h' : INT_MAX < (content reads).length := by rw [content_eq]; exact h
      simp only [INT_MAX] at h'
      omega
    · right
      refine ⟨(content reads).length, ?_, hlen⟩
      rw [content_eq]; exact h
  · rw [hbuf, List.length_append, List.length_replicate]
    simp only [BUF_SIZE]
    omega
  · rw [hbuf, List.getElem?_append_right (by simp only [BUF_SIZE]; omega),
      List.getElem?_replicate]
    simp only [BUF_SIZE]
    rw [if_pos (by omega)]
  · intro hflow dflag client_ip hd
    have hok : ∀ c ∈ (client_read reads).calls, c.result ≠ .error := by
      intro c hc he
      exact (hflow c hc).1 (by rw [he]; rfl)
    have hnl : NL ∉ content reads := by
      intro hmem
      obtain ⟨l, hl, hin⟩ := List.mem_flatten.mp hmem
      obtain ⟨c, hc, rfl⟩ := List.mem_map.mp hl
      exact (hflow c hc).2 hin
    have hpos : 0 < (client_read reads).calls.length :=
      read_loop_calls_pos reads (BUF_SIZE - 1) 0 0 (bzero BUF_SIZE)
    have hfull : (content reads).length = BUF_SIZE - 1 := by
      have hok' : ∀ j, j < (client_read reads).calls.length → reads j ≠ .error :=
        fun j hj => hok _ (read_buffer_call_mem _ _ reads j hj)
      have hin : (recv reads 0 (client_read reads).calls.length).length ≤ INT_MAX := by
        rw [← content_eq]
        simp only [INT_MAX]
        omega
      rcases (read_buffer_ok _ _ reads hin hok').2 with h | h
      · have hmem := read_buffer_call_mem (bzero BUF_SIZE) (BUF_SIZE - 1) reads
          ((client_read reads).calls.length - 1) (Nat.sub_lt hpos Nat.one_pos)
        exact absurd h (hflow _ hmem).1
      · have h' : BUF_SIZE - 1 ≤ (recv reads 0 (client_read reads).calls.length).length := h
        rw [← content_eq] at h'
        exact Nat.le_antisymm hlen h'
    obtain ⟨hret, _⟩ := client_read_ok reads hok hlen
    have hz : 0 < BUF_SIZE - (content reads).length := by
      simp only [BUF_SIZE]
      omega
    refine ⟨hfull, by decide, ?_, fun h0 => by rw [cstr_of_not_mem _ h0, hfull]⟩
    rw [communicate_client_of_ret _ _ _ _ hret, hbuf,
      report_no_newline dflag client_ip _ _ hd hz hnl, hfull]

theorem floodReads_content : content floodReads = List.replicate 1023 97 :=
  content_full (List.replicate 1023 97) (List.length_replicate _ _)

/-- Witness of C4: a client with more than 1023 bytes `a` to send. -/
theorem read_bound_witness :
    (∀ c ∈ (client_read floodReads).calls, c.result.bytes.length ≤ c.count) ∧
    (∀ c ∈ (client_read floodReads).calls, c.result.bytes ≠ [] ∧ NL ∉ c.result.bytes) ∧
    (1 : Int) ≠ 0 ∧ 0 ∉ content floodReads ∧
    (∀ c ∈ (client_read floodReads).calls, c.offset + c.result.bytes.length ≤ BUF_SIZE - 1) ∧
    (content floodReads).length = BUF_SIZE - 1 ∧
    communicate_client 1 floodReads (ascii "127.0.0.1")
      = .printed (BUF_SIZE - 1) (cstr (content floodReads))
          (cstr (ascii "127.0.0.1") ++ ascii ": " ++ cstr (content floodReads) ++ [NL]) ∧
    (cstr (content floodReads)).length = BUF_SIZE - 1 :=
  have h1 : ∀ c ∈ (client_read floodReads).calls, c.result.bytes.length ≤ c.count := by
    rw [floodReads_read]
    intro c hc
    rw [List.mem_singleton.mp hc]
    show (List.replicate 1023 97).length ≤ 1023
    rw [List.length_replicate]
  have h2 : ∀ c ∈ (client_read floodReads).calls,
      c.result.bytes ≠ [] ∧ NL ∉ c.result.bytes := by
    rw [floodReads_read]
    intro c hc
    rw [List.mem_singleton.mp hc]
    refine ⟨fun h => ?_, fun h => ?_⟩
    · have := congrArg List.length h
      rw [show (ReadCall.mk 0 1023 (.data (List.replicate 1023 97))).result.bytes
        = List.replicate 1023 97 from rfl, List.length_replicate] at this
      cases this
    · have := (List.mem_replicate.mp h).2
      cases this
  have h3 : (1 : Int) ≠ 0 := by decide
  have h4 : 0 ∉ content floodReads := by
    rw [floodReads_content]
    intro h
    exact absurd (List.mem_replicate.mp h).2 (by decide)
  have h := read_bound floodReads h1
  ⟨h1, h2, h3, h4, h.2.1, (h.2.2.2.2 h2 1 (ascii "127.0.0.1") h3).1,
    (h.2.2.2.2 h2 1 (ascii "127.0.0.1") h3).2.2.1,
    (h.2.2.2.2 h2 1 (ascii "127.0.0.1") h3).2.2.2 h4⟩

theorem nulFlood_length : nulFlood.length = 1023 := by
  unfold nulFlood
  rw [List.length_cons, List.length_cons, List.length_replicate]

theorem nulFlood_cstr : cstr nulFlood = [97] := by
  unfold nulFlood cstr
  rw [List.takeWhile_cons_of_pos (by decide), List.takeWhile_cons_of_neg (by decide)]

theorem nulFlood_no_newline : NL ∉ nulFlood := by
  unfold nulFlood
  intro h
  rcases List.mem_cons.mp h with h | h
  · exact absurd h (by decide)
  · rcases List.mem_cons.mp h with h | h
    · exact absurd h (by decide)
    · exact absurd (List.mem_replicate.mp h).2 (by decide)

theorem nulFloodReads_read :
    client_read nulFloodReads
      = ⟨some 1023, nulFlood ++ List.replicate 1 0, [⟨0, 1023, .data nulFlood⟩]⟩ := by
  have h := client_read_full nulFlood nulFlood_length
  rw [nulFlood_length] at h
  exact h

/-- Counterexample to C4 as stated: a client with 1024 or more bytes to
send, none a newline and the second one NUL.  Every read stays within the
count asked for and delivers bytes without newline, 1023 bytes are taken
in; with debug mode on the terminator goes to index 1023 but the line
reported is the single byte `a`, of length 1 and not 1023; with debug mode
off nothing is reported and no terminator is stored. -/
theorem read_bound_nul_counterexample :
    (∀ c ∈ (client_read nulFloodReads).calls, c.result.bytes.length ≤ c.count) ∧
    (∀ c ∈ (client_read nulFloodReads).calls,
      c.result.bytes ≠ [] ∧ NL ∉ c.result.bytes) ∧
    (content nulFloodReads).length = 1023 ∧
    communicate_client 1 nulFloodReads (ascii "127.0.0.1")
      = .printed 1023 [97] (ascii "127.0.0.1: a\n") ∧
    communicate_client 0 nulFloodReads (ascii "127.0.0.1") = .quiet := by
  have hret : (client_read nulFloodReads).ret = some ((nulFlood.length : Nat) : Int) := by
    rw [nulFloodReads_read, nulFlood_length]; rfl
  have hbuf : (client_read nulFloodReads).buf = nulFlood ++ List.replicate 1 0 := by
    rw [nulFloodReads_read]
  refine ⟨?_, ?_, ?_, ?_, ?_⟩
  · rw [nulFloodReads_read]
    intro c hc
    rw [List.mem_singleton.mp hc]
    show nulFlood.length ≤ 1023
    rw [nulFlood_length]
  · rw [nulFloodReads_read]
    intro c hc
    rw [List.mem_singleton.mp hc]
    refine ⟨fun h => ?_, nulFlood_no_newline⟩
    have := congrArg List.length h
    rw [show (ReadCall.mk 0 1023 (.data nulFlood)).result.bytes = nulFlood from rfl,
      nulFlood_length] at this
    cases this
  · have hc : content nulFloodReads = nulFlood := content_full nulFlood nulFlood_length
    rw [hc, nulFlood_length]
  · rw [communicate_client_of_ret _ _ _ _ hret, hbuf,
      report_no_newline 1 _ nulFlood 1 (by decide) (by decide) nulFlood_no_newline,
      nulFlood_length, nulFlood_cstr]
    decide
  · rw [communicate_client_of_ret _ _ _ _ hret, hbuf, report_quiet]

/-! ## Claim on `handle_client` -/

/-- C3: for every peer address record whose family tag is neither
`AF_INET6` nor `AF_INET`, and for every record of one of these families
whose `inet_ntop` conversion fails, whatever the conversion left in the
buffer, the C string in `client_ip` when `handle_client` calls
`communicate_client` is exactly `X.X.X.X`, and the call behaves as with that
string.  `INET6_ADDRSTRLEN` is at least 9 (it is 46 in the system
headers). -/
theorem unknown_address (AF_INET AF_INET6 INET6_ADDRSTRLEN : Nat)
    (inet_ntop : Nat → List Nat → List Nat → Nat → Bool × List Nat)
    (client_sock : Int) (client : sockaddr_storage) (dflag : Int)
    (reads : Nat → ReadResult)
    (hsize : 9 ≤ INET6_ADDRSTRLEN)
    (hfail : (client.ss_family ≠ AF_INET6 ∧ client.ss_family ≠ AF_INET) ∨
      (client.ss_family = AF_INET6 ∧
        (inet_ntop AF_INET6 client.sin6_addr (bzero INET6_ADDRSTRLEN) INET6_ADDRSTRLEN).1
          = false) ∨
      (client.ss_family ≠ AF_INET6 ∧ client.ss_family = AF_INET ∧
        (inet_ntop AF_INET client.sin_addr (bzero INET6_ADDRSTRLEN) INET6_ADDRSTRLEN).1
          = false)) :
    cstr (handle_client AF_INET AF_INET6 INET6_ADDRSTRLEN inet_ntop client_sock client dflag
        reads).client_ip = UNKNOWN_IP ∧
    (handle_client AF_INET AF_INET6 INET6_ADDRSTRLEN inet_ntop client_sock client dflag
        reads).comm = communicate_client dflag reads UNKNOWN_IP := by
  have hn : 8 ≤ INET6_ADDRSTRLEN - 1 := by omega
  have hip : cstr (determine_client_ip AF_INET AF_INET6 INET6_ADDRSTRLEN inet_ntop client).2
      = UNKNOWN_IP := by
    rcases hfail with ⟨h6, h4⟩ | ⟨h6, hr⟩ | ⟨h6, h4, hr⟩
    · simp only [determine_client_ip, if_neg h6, if_neg h4, Bool.false_eq_true, if_false]
      exact cstr_strncpy_unknown _ _ hn
    · simp only [determine_client_ip, if_pos h6, hr, Bool.false_eq_true, if_false]
      exact cstr_strncpy_unknown _ _ hn
    · simp only [determine_client_ip, if_neg h6, if_pos h4, hr, Bool.false_eq_true, if_false]
      exact cstr_strncpy_unknown _ _ hn
  refine ⟨hip, ?_⟩
  show communicate_client dflag reads
    (determine_client_ip AF_INET AF_INET6 INET6_ADDRSTRLEN inet_ntop client).2 = _
  exact communicate_client_cstr _ _ _ _ (by rw [hip, cstr_UNKNOWN_IP])

/-- Witness of C3: an IPv4 peer (family 2) whose conversion fails and
leaves junk in the buffer, with `INET6_ADDRSTRLEN = 46`. -/
theorem unknown_address_witness :
    9 ≤ 46 ∧
    (failing_ntop 2 [127, 0, 0, 1] (bzero 46) 46).1 = false ∧
    cstr (handle_client 2 10 46 failing_ntop 4 ⟨2, [127, 0, 0, 1], []⟩ 1 pingReads).client_ip
      = ascii "X.X.X.X" ∧
    (handle_client 2 10 46 failing_ntop 4 ⟨2, [127, 0, 0, 1], []⟩ 1 pingReads).comm
      = communicate_client 1 pingReads (ascii "X.X.X.X") :=
  have h := unknown_address 2 10 46 failing_ntop 4 ⟨2, [127, 0, 0, 1], []⟩ 1 pingReads
    (by decide) (Or.inr (Or.inr ⟨by decide, rfl, rfl⟩))
  ⟨by decide, rfl, h.1, h.2⟩

/-! ## Claim on `setup_server_socket` -/

/-- C7: for every configuration and every result of the system calls,
`setup_server_socket` first asks `socket` for the family `AF_INET6` if
`i_address` is null or `ipv6` is non-zero and for `AF_INET` in every other
case; when `socket` succeeds, the next call is `bind` on that socket with
an IPv6 address structure (`server6`) if and only if `i_address` is null
or `ipv6` is non-zero, with a structure whose family tag is the family asked
of `socket`, and with the size of that structure as length; when `socket`
fails nothing is bound. -/
theorem family_selection (e : SetupEnv) (flag : flags) :
    (setup_server_socket e flag).1.head?
      = some (.socket (if flag.i_address = none ∨ flag.ipv6 ≠ 0 then e.AF_INET6
          else e.AF_INET)) ∧
    (0 ≤ e.socket_res →
      ∃ addr len, (setup_server_socket e flag).1[1]? = some (.bind e.socket_res addr len) ∧
        (addr.is6 = true ↔ (flag.i_address = none ∨ flag.ipv6 ≠ 0)) ∧
        addr.family = (if flag.i_address = none ∨ flag.ipv6 ≠ 0 then e.AF_INET6
          else e.AF_INET) ∧
        len = (if flag.i_address = none ∨ flag.ipv6 ≠ 0 then e.sizeof_sockaddr_in6
          else e.sizeof_sockaddr_in)) ∧
    (e.socket_res < 0 →
      ∀ ev ∈ (setup_server_socket e flag).1, ∀ s addr len, ev ≠ .bind s addr len) := by
  have hu : use_ipv6 flag = decide (flag.i_address = none ∨ flag.ipv6 ≠ 0) := by
    simp [use_ipv6]
  refine ⟨?_, ?_, ?_⟩
  · simp only [setup_server_socket, hu, decide_eq_true_eq]
    split <;> [rfl; (split <;> [rfl; (split <;> rfl)])]
  · intro hs
    have hs' : ¬ e.socket_res < 0 := by omega
    refine ⟨server_addr e flag, server_length e flag, ?_, ?_, ?_, ?_⟩
    · simp only [setup_server_socket, if_neg hs']
      split <;> [rfl; (split <;> rfl)]
    · by_cases h6 : flag.i_address = none ∨ flag.ipv6 ≠ 0
      · simp [server_addr, hu, h6, SockAddr.is6]
      · simp [server_addr, hu, h6, SockAddr.is6]
    · by_cases h6 : flag.i_address = none ∨ flag.ipv6 ≠ 0
      · simp [server_addr, hu, h6, SockAddr.family]
      · simp [server_addr, hu, h6, SockAddr.family]
    · simp only [server_length, hu, decide_eq_true_eq]
  · intro hs ev hev s addr len
    simp only [setup_server_socket, if_pos hs, List.mem_cons, List.mem_singleton,
      List.not_mem_nil, or_false] at hev
    rcases hev with rfl | rfl <;> exact fun h => SetupEvent.noConfusion h

/-! ## Claim on `accept_client` -/

/-- C8: for every outcome of `accept` and `fork`, one call of
`accept_client` ends the server process if and only if `accept` succeeded
and `fork` failed; when `accept` fails the call only reports the error (no
`fork`, no `close`) and returns, and the loop of `run_server` goes on with
the next iteration, which begins with a call of `accept`; when `accept`
succeeds and `fork` returns a child's process id, the parent closes the
accepted descriptor and returns, with no other call. -/
theorem acceptor_error_handling (AF_INET AF_INET6 INET6_ADDRSTRLEN : Nat)
    (inet_ntop : Nat → List Nat → List Nat → Nat → Bool × List Nat)
    (dflag : Int) (a : Arrival) (rest : List Arrival) :
    ((accept_client AF_INET AF_INET6 INET6_ADDRSTRLEN inet_ntop dflag a).2 = .exit_failure ↔
      (0 ≤ a.client_sock ∧ a.fork_res = -1)) ∧
    (a.client_sock < 0 →
      accept_client AF_INET AF_INET6 INET6_ADDRSTRLEN inet_ntop dflag a
        = ([.accept, .perror_accept], .returned) ∧
      run_server_loop AF_INET AF_INET6 INET6_ADDRSTRLEN inet_ntop dflag (a :: rest)
        = ([.accept, .perror_accept]
            ++ (run_server_loop AF_INET AF_INET6 INET6_ADDRSTRLEN inet_ntop dflag rest).1,
          (run_server_loop AF_INET AF_INET6 INET6_ADDRSTRLEN inet_ntop dflag rest).2)) ∧
    (∀ (b : Arrival) (more : List Arrival),
      (run_server_loop AF_INET AF_INET6 INET6_ADDRSTRLEN inet_ntop dflag (b :: more)).1.head?
        = some .accept) ∧
    (0 ≤ a.client_sock → 0 < a.fork_res →
      accept_client AF_INET AF_INET6 INET6_ADDRSTRLEN inet_ntop dflag a
        = ([.accept, .fork, .close a.client_sock], .returned)) := by
  refine ⟨?_, ?_, ?_, ?_⟩
  · by_cases hs : a.client_sock < 0
    · have hs' : ¬ 0 ≤ a.client_sock := by omega
      simp [accept_client, hs, hs']
    · have hs' : 0 ≤ a.client_sock := by omega
      by_cases hf : a.fork_res = -1
      · simp [accept_client, hs, hf, hs']
      · by_cases hz : a.fork_res = 0
        · simp [accept_client, hs, hf, hz]
        · simp [accept_client, hs, hf, hz]
  · intro hs
    have h1 : accept_client AF_INET AF_INET6 INET6_ADDRSTRLEN inet_ntop dflag a
        = ([.accept, .perror_accept], .returned) := by
      simp only [accept_client, if_pos hs]
    refine ⟨h1, ?_⟩
    simp only [run_server_loop, h1]
  · intro b more
    simp only [run_server_loop, accept_client]
    by_cases hs : b.client_sock < 0
    · simp only [if_pos hs]; rfl
    · by_cases hf : b.fork_res = -1
      · simp only [if_neg hs, if_pos hf]; rfl
      · by_cases hz : b.fork_res = 0
        · simp only [if_neg hs, if_neg hf, if_pos hz]; rfl
        · simp only [if_neg hs, if_neg hf, if_neg hz]; rfl
  · intro hs hf
    have h1 : ¬ a.client_sock < 0 := by omega
    have h2 : ¬ a.fork_res = -1 := by omega
    have h3 : ¬ a.fork_res = 0 := by omega
    simp only [accept_client, if_neg h1, if_neg h2, if_neg h3]

/-! ## Claim on `server_sig_handler` -/

/-- C9: for every signal number, `server_sig_handler` ends the process with
a failure status if and only if the number is neither `SIGCHLD` nor
`SIGHUP`; for `SIGCHLD` it calls `wait` exactly once and returns even if the
call fails; for `SIGHUP` it makes no call and returns.  The two signal
numbers are distinct, as case labels of one `switch` have to be. -/
theorem signal_disposition (SIGCHLD SIGHUP signo wait_res : Int) (hdist : SIGCHLD ≠ SIGHUP) :
    ((server_sig_handler SIGCHLD SIGHUP signo wait_res).2 = .exit_failure ↔
      (signo ≠ SIGCHLD ∧ signo ≠ SIGHUP)) ∧
    (signo = SIGCHLD →
      (server_sig_handler SIGCHLD SIGHUP signo wait_res).1.count .wait = 1 ∧
      (server_sig_handler SIGCHLD SIGHUP signo wait_res).2 = .returned) ∧
    (signo = SIGHUP →
      server_sig_handler SIGCHLD SIGHUP signo wait_res = ([], .returned)) := by
  refine ⟨?_, ?_, ?_⟩
  · by_cases hc : signo = SIGCHLD
    · by_cases hw : wait_res < 0
      · simp [server_sig_handler, hc, hw]
      · simp [server_sig_handler, hc, hw]
    · by_cases hh : signo = SIGHUP
      · have hne : ¬ SIGHUP = SIGCHLD := fun h => hdist h.symm
        simp [server_sig_handler, hh, hne]
      · simp [server_sig_handler, hc, hh]
  · intro hc
    unfold server_sig_handler
    by_cases hw : wait_res < 0
    · simp only [if_pos hc, if_pos hw]; decide
    · simp only [if_pos hc, if_neg hw]; decide
  · intro hh
    have hc : ¬ signo = SIGCHLD := by rw [hh]; exact fun h => hdist h.symm
    simp only [server_sig_handler, if_neg hc, if_pos hh]

/-- Witness of C9: the Linux numbers `SIGCHLD = 17` and `SIGHUP = 1`, the
signal `SIGCHLD` and a failing `wait`. -/
theorem signal_disposition_witness :
    (17 : Int) ≠ 1 ∧
    server_sig_handler 17 1 17 (-1) = ([.wait, .perror_wait], .returned) ∧
    ((server_sig_handler 17 1 17 (-1)).2 = .exit_failure ↔
      ((17 : Int) ≠ 17 ∧ (17 : Int) ≠ 1)) ∧
    (server_sig_handler 17 1 17 (-1)).1.count .wait = 1 :=
  have h := signal_disposition 17 1 17 (-1) (by decide)
  ⟨by decide, by decide, h.1, (h.2.1 rfl).1⟩

end Sws
